import Mathlib

/-!
Verification of the Cyrus procedure/workflow routing and execution engine.

This file gives a shallow embedding of the routing core:
* the static procedure registry (`registry.ts`),
* the `ProcedureAnalyzer` workflow selector and per-session state machine,
* the `WorkflowParser` (structural checks, conversion, directory merge),
* the validation loop controller (modelled from the spec; its implementation
  is not among the provided sources, only its re-exports).

External I/O (the AI runner call, the YAML text parser, the filesystem read)
is modelled by passing its result as an explicit argument: the runner reply is
an `Except String` value, a YAML file is represented by its parsed document
tree (`JValue`), and a directory by the list of filename/document pairs.
-/

set_option maxHeartbeats 1000000

/-- Request classification vocabulary (the `validResponses` closed enumeration
in `ProcedureAnalyzer`; `userTesting` renders as the string `user-testing`). -/
inductive RequestClassification where
  | question
  | documentation
  | transient
  | planning
  | code
  | debugger
  | orchestrator
  | userTesting
  | release
deriving DecidableEq, Repr

/-- The string form of a classification, as it appears in prompts and in
template-string interpolation of reasoning text. -/
def classificationName : RequestClassification → String
  | .question => "question"
  | .documentation => "documentation"
  | .transient => "transient"
  | .planning => "planning"
  | .code => "code"
  | .debugger => "debugger"
  | .orchestrator => "orchestrator"
  | .userTesting => "user-testing"
  | .release => "release"

/-- Inverse of `classificationName` on the closed vocabulary, used when
decoding `triggers.classifications` entries of a YAML workflow file. -/
def classificationOfString : String → Option RequestClassification
  | "question" => some .question
  | "documentation" => some .documentation
  | "transient" => some .transient
  | "planning" => some .planning
  | "code" => some .code
  | "debugger" => some .debugger
  | "orchestrator" => some .orchestrator
  | "user-testing" => some .userTesting
  | "release" => some .release
  | _ => none

/-- `SubroutineDefinition` from `procedures/types.ts` usage: required
`name`/`promptPath`/`description` plus optional behavioral flags.  Optional
fields are `Option` so that "absent" and "explicitly false" stay distinct. -/
structure SubroutineDefinition where
  name : String
  promptPath : String
  description : String
  singleTurn : Option Bool := none
  usesValidationLoop : Option Bool := none
  disallowAllTools : Option Bool := none
  disallowedTools : Option (List String) := none
  requiresApproval : Option Bool := none
  suppressThoughtPosting : Option Bool := none
  skipLinearPost : Option Bool := none
deriving DecidableEq, Repr

/-- `ProcedureDefinition`: a named, ordered list of subroutines. -/
structure ProcedureDefinition where
  name : String
  description : String
  subroutines : List SubroutineDefinition
deriving DecidableEq, Repr

/-- `SubroutineReference` from `workflows/types.ts`: the externally-authored,
snake_case, pre-conversion form of a subroutine. -/
structure SubroutineReference where
  name : String
  prompt_file : String
  description : Option String := none
  single_turn : Option Bool := none
  validation_loop : Option Bool := none
  max_iterations : Option Int := none
  disallow_tools : Option Bool := none
  disallowed_tools : Option (List String) := none
  requires_approval : Option Bool := none
  suppress_thought_posting : Option Bool := none
  skip_linear_post : Option Bool := none
deriving DecidableEq, Repr

/-- `WorkflowTriggers` from `workflows/types.ts`. -/
structure WorkflowTriggers where
  classifications : Option (List RequestClassification) := none
  labels : Option (List String) := none
  keywords : Option (List String) := none
  examples : Option (List String) := none
deriving DecidableEq, Repr

/-- `WorkflowDefinition` from `workflows/types.ts`. -/
structure WorkflowDefinition where
  name : String
  description : String
  triggers : Option WorkflowTriggers := none
  priority : Option Int := none
  subroutines : List SubroutineReference := []
deriving DecidableEq, Repr

/-- `WorkflowCollection`: the top-level content of one workflow YAML file
(the optional `version` field is not consulted by any of the covered code). -/
structure WorkflowCollection where
  workflows : List WorkflowDefinition
deriving DecidableEq, Repr

/-- `ProcedureAnalysisDecision`: result of classification-based routing. -/
structure ProcedureAnalysisDecision where
  classification : RequestClassification
  procedure : ProcedureDefinition
  reasoning : String
deriving DecidableEq, Repr

/-- The selection mode recorded on a `WorkflowSelectionDecision`.  The spec
names three modes (label, direct, classification); the code only ever
produces `direct` or `classification`. -/
inductive SelectionMode where
  | label
  | direct
  | classification
deriving DecidableEq, Repr

/-- `WorkflowSelectionDecision`: output of `selectWorkflow`. -/
structure WorkflowSelectionDecision where
  workflowName : String
  procedure : ProcedureDefinition
  selectionMode : SelectionMode
  classification : RequestClassification
  reasoning : String
deriving DecidableEq, Repr

/-! ### Insertion-order string map

`Map<string, T>` in the source preserves insertion order; `set` on an existing
key updates the value in place.  `mapLookup` is `Map.get`, `mapSet` is
`Map.set`, and `m.map (fun p => p.2)` lists the values in `Map.values` order. -/

/-- `Map.get`. -/
def mapLookup {α : Type} (m : List (String × α)) (k : String) : Option α :=
  (m.find? (fun p => p.1 == k)).map (fun p => p.2)

/-- `Map.set`: update in place if the key exists, else append. -/
def mapSet {α : Type} (m : List (String × α)) (k : String) (v : α) :
    List (String × α) :=
  if m.any (fun p => p.1 == k) then
    m.map (fun p => if p.1 == k then (k, v) else p)
  else
    m ++ [(k, v)]

/-! ### Stable sort

`Array.prototype.sort` is stable, so with a consistent comparator its result
is the unique stable order; a stable insertion sort is an exact model.
`stableSortBy before` sorts so that `x` precedes `y` whenever `before x y`,
keeping the original order of elements neither of which strictly precedes
the other. -/

/-- Insert `x` after every element it does not strictly precede. -/
def insortBy {α : Type} (before : α → α → Bool) (x : α) :
    List α → List α
  | [] => [x]
  | y :: ys => if before x y then x :: y :: ys else y :: insortBy before x ys

/-- Stable insertion sort: elements are inserted left to right, each placed
after all already-placed elements it does not strictly precede. -/
def stableSortBy {α : Type} (before : α → α → Bool) (l : List α) : List α :=
  l.foldl (fun acc x => insortBy before x acc) []

/-- Lexicographic character-list comparison. -/
def charListLt : List Char → List Char → Bool
  | [], [] => false
  | [], _ :: _ => true
  | _ :: _, [] => false
  | c :: cs, d :: ds =>
    if c < d then true else if d < c then false else charListLt cs ds

/-- Strict lexicographic string comparison: the filename order of the
directory sort (extensionally the library order on strings, written
structurally so that it evaluates in the kernel). -/
def strLt (x y : String) : Bool := charListLt x.data y.data

/-! ### Registry (`registry.ts`) -/

namespace SUBROUTINES

def primary : SubroutineDefinition :=
  { name := "primary", promptPath := "primary",
    description := "Main work execution phase" }

def debuggerReproduction : SubroutineDefinition :=
  { name := "debugger-reproduction",
    promptPath := "subroutines/debugger-reproduction.md",
    description := "Reproduce bug and perform root cause analysis" }

def getApproval : SubroutineDefinition :=
  { name := "get-approval", promptPath := "subroutines/get-approval.md",
    description := "Request user approval before proceeding",
    singleTurn := some true, requiresApproval := some true }

def debuggerFix : SubroutineDefinition :=
  { name := "debugger-fix", promptPath := "subroutines/debugger-fix.md",
    description := "Implement minimal fix based on approved reproduction" }

def verifications : SubroutineDefinition :=
  { name := "verifications", promptPath := "subroutines/verifications.md",
    description := "Run tests, linting, and type checking",
    usesValidationLoop := some true }

def validationFixer : SubroutineDefinition :=
  { name := "validation-fixer", promptPath := "subroutines/validation-fixer.md",
    description := "Fix validation failures from the verifications subroutine" }

def gitCommit : SubroutineDefinition :=
  { name := "git-commit", promptPath := "subroutines/git-commit.md",
    description := "Stage, commit, and push changes to remote" }

def ghPr : SubroutineDefinition :=
  { name := "gh-pr", promptPath := "subroutines/gh-pr.md",
    description := "Create or update GitHub Pull Request" }

def azPrCreate : SubroutineDefinition :=
  { name := "az-pr-create", promptPath := "subroutines/az-pr-create.md",
    description := "Create draft PR in Azure DevOps and update changelog" }

def azPrFinalize : SubroutineDefinition :=
  { name := "az-pr-finalize", promptPath := "subroutines/az-pr-finalize.md",
    description := "Update and finalize Azure DevOps Pull Request" }

def changelogUpdate : SubroutineDefinition :=
  { name := "changelog-update", promptPath := "subroutines/changelog-update.md",
    description := "Update changelog (only if changelog files exist)" }

def conciseSummary : SubroutineDefinition :=
  { name := "concise-summary", promptPath := "subroutines/concise-summary.md",
    description := "Brief summary for simple requests",
    singleTurn := some true, suppressThoughtPosting := some true,
    disallowAllTools := some true }

def verboseSummary : SubroutineDefinition :=
  { name := "verbose-summary", promptPath := "subroutines/verbose-summary.md",
    description := "Detailed summary with implementation details",
    singleTurn := some true, suppressThoughtPosting := some true,
    disallowAllTools := some true }

def questionInvestigation : SubroutineDefinition :=
  { name := "question-investigation",
    promptPath := "subroutines/question-investigation.md",
    description := "Gather information needed to answer a question" }

def questionAnswer : SubroutineDefinition :=
  { name := "question-answer", promptPath := "subroutines/question-answer.md",
    description := "Format final answer to user question",
    singleTurn := some true, suppressThoughtPosting := some true,
    disallowAllTools := some true }

def codingActivity : SubroutineDefinition :=
  { name := "coding-activity", promptPath := "subroutines/coding-activity.md",
    description := "Implementation phase for code changes (no git/gh operations)" }

def preparation : SubroutineDefinition :=
  { name := "preparation", promptPath := "subroutines/preparation.md",
    description := "Analyze request to determine if clarification or planning is needed" }

def planSummary : SubroutineDefinition :=
  { name := "plan-summary", promptPath := "subroutines/plan-summary.md",
    description := "Present clarifying questions or implementation plan",
    singleTurn := some true, suppressThoughtPosting := some true,
    disallowAllTools := some true }

def userTesting : SubroutineDefinition :=
  { name := "user-testing", promptPath := "subroutines/user-testing.md",
    description := "Perform testing as requested by the user" }

def userTestingSummary : SubroutineDefinition :=
  { name := "user-testing-summary",
    promptPath := "subroutines/user-testing-summary.md",
    description := "Summary of user testing session results",
    singleTurn := some true, suppressThoughtPosting := some true,
    disallowAllTools := some true }

def releaseExecution : SubroutineDefinition :=
  { name := "release-execution", promptPath := "subroutines/release-execution.md",
    description := "Execute release process using project skill or gather release info via AskUserQuestion" }

def releaseSummary : SubroutineDefinition :=
  { name := "release-summary", promptPath := "subroutines/release-summary.md",
    description := "Summary of the release process",
    singleTurn := some true, suppressThoughtPosting := some true,
    disallowAllTools := some true }

end SUBROUTINES

/-- The built-in procedure `simple-question`. -/
def simpleQuestion : ProcedureDefinition :=
  { name := "simple-question",
    description := "For questions or requests that do not modify the codebase",
    subroutines := [SUBROUTINES.questionInvestigation, SUBROUTINES.questionAnswer] }

/-- The built-in procedure `documentation-edit`. -/
def documentationEdit : ProcedureDefinition :=
  { name := "documentation-edit",
    description := "For documentation/markdown edits that do not require verification",
    subroutines := [SUBROUTINES.primary, SUBROUTINES.gitCommit,
      SUBROUTINES.ghPr, SUBROUTINES.conciseSummary] }

/-- The built-in procedure `full-development`. -/
def fullDevelopment : ProcedureDefinition :=
  { name := "full-development",
    description := "For code changes requiring full verification and PR creation",
    subroutines := [SUBROUTINES.codingActivity, SUBROUTINES.verifications,
      SUBROUTINES.changelogUpdate, SUBROUTINES.gitCommit, SUBROUTINES.ghPr,
      SUBROUTINES.conciseSummary] }

/-- The built-in procedure `debugger-full`. -/
def debuggerFull : ProcedureDefinition :=
  { name := "debugger-full",
    description := "Full debugging workflow with reproduction, fix, and verification",
    subroutines := [SUBROUTINES.debuggerReproduction, SUBROUTINES.debuggerFix,
      SUBROUTINES.verifications, SUBROUTINES.changelogUpdate,
      SUBROUTINES.gitCommit, SUBROUTINES.ghPr, SUBROUTINES.conciseSummary] }

/-- The built-in procedure `orchestrator-full`. -/
def orchestratorFull : ProcedureDefinition :=
  { name := "orchestrator-full",
    description := "Full orchestration workflow with decomposition and delegation to sub-agents",
    subroutines := [SUBROUTINES.primary, SUBROUTINES.conciseSummary] }

/-- The built-in procedure `plan-mode`. -/
def planMode : ProcedureDefinition :=
  { name := "plan-mode",
    description := "Planning mode for requests needing clarification or implementation planning",
    subroutines := [SUBROUTINES.preparation, SUBROUTINES.planSummary] }

/-- The built-in procedure `user-testing`. -/
def userTestingProcedure : ProcedureDefinition :=
  { name := "user-testing",
    description := "User-driven testing workflow for manual testing sessions",
    subroutines := [SUBROUTINES.userTesting, SUBROUTINES.userTestingSummary] }

/-- The built-in procedure `release`. -/
def releaseProcedure : ProcedureDefinition :=
  { name := "release",
    description := "Release workflow that invokes project release skill or asks user for release info",
    subroutines := [SUBROUTINES.releaseExecution, SUBROUTINES.releaseSummary] }

/-- The built-in procedure `full-development-azure`. -/
def fullDevelopmentAzure : ProcedureDefinition :=
  { name := "full-development-azure",
    description := "For code changes requiring full verification and PR creation (Azure DevOps)",
    subroutines := [SUBROUTINES.codingActivity, SUBROUTINES.verifications,
      SUBROUTINES.azPrCreate, SUBROUTINES.gitCommit, SUBROUTINES.azPrFinalize,
      SUBROUTINES.conciseSummary] }

/-- The built-in procedure `documentation-edit-azure`. -/
def documentationEditAzure : ProcedureDefinition :=
  { name := "documentation-edit-azure",
    description := "For documentation/markdown edits that do not require verification (Azure DevOps)",
    subroutines := [SUBROUTINES.primary, SUBROUTINES.gitCommit,
      SUBROUTINES.azPrCreate, SUBROUTINES.azPrFinalize,
      SUBROUTINES.conciseSummary] }

/-- The built-in procedure `debugger-full-azure`. -/
def debuggerFullAzure : ProcedureDefinition :=
  { name := "debugger-full-azure",
    description := "Full debugging workflow with reproduction, fix, and verification (Azure DevOps)",
    subroutines := [SUBROUTINES.debuggerReproduction, SUBROUTINES.debuggerFix,
      SUBROUTINES.verifications, SUBROUTINES.azPrCreate, SUBROUTINES.gitCommit,
      SUBROUTINES.azPrFinalize, SUBROUTINES.conciseSummary] }

/-- `PROCEDURES`: the static registry, as an insertion-ordered name map. -/
def PROCEDURES : List (String × ProcedureDefinition) :=
  [ ("simple-question", simpleQuestion)
  , ("documentation-edit", documentationEdit)
  , ("full-development", fullDevelopment)
  , ("debugger-full", debuggerFull)
  , ("orchestrator-full", orchestratorFull)
  , ("plan-mode", planMode)
  , ("user-testing", userTestingProcedure)
  , ("release", releaseProcedure)
  , ("full-development-azure", fullDevelopmentAzure)
  , ("documentation-edit-azure", documentationEditAzure)
  , ("debugger-full-azure", debuggerFullAzure) ]

/-- `CLASSIFICATION_TO_PROCEDURE`: total map classification to procedure name. -/
def CLASSIFICATION_TO_PROCEDURE : RequestClassification → String
  | .question => "simple-question"
  | .documentation => "documentation-edit"
  | .transient => "simple-question"
  | .planning => "plan-mode"
  | .code => "full-development"
  | .debugger => "debugger-full"
  | .orchestrator => "orchestrator-full"
  | .userTesting => "user-testing"
  | .release => "release"

/-- `getProcedureForClassification`. -/
def getProcedureForClassification (c : RequestClassification) : String :=
  CLASSIFICATION_TO_PROCEDURE c

/-! ### Workflow selector (`ProcedureAnalyzer`)

The analyzer state that the covered operations read is its procedure map
(built-in registry entries, then `additionalProcedures` overriding by key)
and its loaded workflow definitions.  Runner calls are asynchronous I/O:
each operation takes the runner reply (or failure) as an input of type
`Except String _`. -/

/-- The analyzer procedure map after construction: the predefined procedures,
then every additional procedure set over them (overriding by key). -/
def analyzerProcedures
    (additional : List (String × ProcedureDefinition)) :
    List (String × ProcedureDefinition) :=
  additional.foldl (fun m p => mapSet m p.1 p.2) PROCEDURES

/-- `determineRoutine`: classification-based routing.  The runner reply is
`classifyResult`; any failure inside the `try` block (runner error, unknown
procedure) fans into the `catch` block, which falls back to the
`full-development` procedure and embeds the error text in `reasoning`. -/
def determineRoutine
    (procs : List (String × ProcedureDefinition))
    (classifyResult : Except String RequestClassification) :
    Except String ProcedureAnalysisDecision :=
  let attempt : Except String ProcedureAnalysisDecision :=
    match classifyResult with
    | .error e => .error e
    | .ok classification =>
      let procedureName := getProcedureForClassification classification
      match mapLookup procs procedureName with
      | some procedure =>
        .ok { classification, procedure,
              reasoning := "Classified as " ++ classificationName classification
                ++ " using procedure " ++ procedureName }
      | none => .error ("Procedure " ++ procedureName ++ " not found in registry")
  match attempt with
  | .ok decision => .ok decision
  | .error err =>
    match mapLookup procs "full-development" with
    | some fallbackProcedure =>
      .ok { classification := .code, procedure := fallbackProcedure,
            reasoning := "Fallback to full-development due to error: " ++ err }
    | none => .error "Fallback procedure full-development not found"

/-- The `nameToClassification` table inside `inferClassificationFromWorkflow`. -/
def nameToClassification : String → Option RequestClassification
  | "full-development" => some .code
  | "simple-question" => some .question
  | "documentation-edit" => some .documentation
  | "debugger-full" => some .debugger
  | "orchestrator-full" => some .orchestrator
  | "plan-mode" => some .planning
  | "user-testing" => some .userTesting
  | "release" => some .release
  | _ => none

/-- `inferClassificationFromWorkflow`: first classification of the named
workflow triggers if present, else the name table, else `code`. -/
def inferClassificationFromWorkflow
    (workflowDefinitions : List WorkflowDefinition) (workflowName : String) :
    RequestClassification :=
  let fromTriggers : Option RequestClassification :=
    match workflowDefinitions.find? (fun w => w.name == workflowName) with
    | some w =>
      match w.triggers with
      | some t => (t.classifications.getD []).head?
      | none => none
    | none => none
  match fromTriggers with
  | some c => c
  | none => (nameToClassification workflowName).getD .code

/-- Per-character lowercase map, the model of `toLowerCase()` used for label
normalization (the library `String.toLower` is the same character map but is
defined by well-founded recursion on byte positions, which does not reduce
in the kernel; this structural form evaluates). -/
def strToLower (s : String) : String :=
  String.mk (s.data.map Char.toLower)

/-- The per-definition label test inside `matchByLabels`: trigger labels
present and non-empty, and some lowercased trigger label occurs among the
lowercased issue labels. -/
def workflowMatchesLabels (normalizedIssueLabels : List String)
    (w : WorkflowDefinition) : Bool :=
  match w.triggers with
  | none => false
  | some t =>
    match t.labels with
    | none => false
    | some ls =>
      if ls.isEmpty then false
      else (ls.map strToLower).any
        (fun triggerLabel => normalizedIssueLabels.contains triggerLabel)

/-- The effective priority used by the sort comparator (`priority ?? 0`). -/
def priorityOf (w : WorkflowDefinition) : Int :=
  w.priority.getD 0

/-- The comparator of `matchByLabels` (descending priority; the JS sort is
stable, so ties keep first-encountered order). -/
def byPriorityDesc (a b : WorkflowDefinition) : Bool :=
  priorityOf a > priorityOf b

/-- The decision record a successful label match returns (the object literal
at the end of `matchByLabels`): selection mode `direct`, inferred
classification, and a reasoning string listing the matched labels. -/
def labelMatchDecision (workflowDefinitions : List WorkflowDefinition)
    (normalizedIssueLabels : List String) (selectedWorkflow : WorkflowDefinition)
    (procedure : ProcedureDefinition) : WorkflowSelectionDecision :=
  let matchedLabels :=
    ((selectedWorkflow.triggers.bind (fun t => t.labels)).getD []).filter
      (fun l => normalizedIssueLabels.contains (strToLower l))
  { workflowName := selectedWorkflow.name, procedure,
    selectionMode := .direct,
    classification :=
      inferClassificationFromWorkflow workflowDefinitions selectedWorkflow.name,
    reasoning := "Label-based match: issue labels ["
      ++ String.intercalate ", " matchedLabels
      ++ "] -> workflow " ++ selectedWorkflow.name }

/-- `matchByLabels`: case-insensitive label matching over the loaded workflow
definitions; among matches, the highest-priority one (ties by original
order); `none` when no labels, no match, or the matched name is not in the
procedure map. -/
def matchByLabels
    (workflowDefinitions : List WorkflowDefinition)
    (procs : List (String × ProcedureDefinition))
    (issueLabels : Option (List String)) :
    Option WorkflowSelectionDecision :=
  match issueLabels with
  | none => none
  | some labels =>
    if labels.isEmpty then none
    else
      let normalizedIssueLabels := labels.map strToLower
      let matchingWorkflows :=
        stableSortBy byPriorityDesc
          (workflowDefinitions.filter (workflowMatchesLabels normalizedIssueLabels))
      match matchingWorkflows with
      | [] => none
      | selectedWorkflow :: _ =>
        match mapLookup procs selectedWorkflow.name with
        | none => none
        | some procedure =>
          some (labelMatchDecision workflowDefinitions normalizedIssueLabels
            selectedWorkflow procedure)

/-- Wrap a classification-routing decision as a `WorkflowSelectionDecision`
(the shape built at both classification-fallback sites of `selectWorkflow`);
`reasoningOverride` is the fallback reasoning used in the catch branch. -/
def classificationDecision (r : ProcedureAnalysisDecision)
    (reasoningOverride : Option String) : WorkflowSelectionDecision :=
  { workflowName := r.procedure.name, procedure := r.procedure,
    selectionMode := .classification, classification := r.classification,
    reasoning := reasoningOverride.getD r.reasoning }

/-- `selectWorkflow`: label match first; if no workflows are loaded,
classification routing; otherwise direct AI selection with classification
fallback on any error (runner failure or unresolvable name). -/
def selectWorkflow
    (workflowDefinitions : List WorkflowDefinition)
    (procs : List (String × ProcedureDefinition))
    (issueLabels : Option (List String))
    (directResult : Except String String)
    (classifyResult : Except String RequestClassification) :
    Except String WorkflowSelectionDecision :=
  match matchByLabels workflowDefinitions procs issueLabels with
  | some labelMatch => .ok labelMatch
  | none =>
    if workflowDefinitions.isEmpty then
      (determineRoutine procs classifyResult).map
        (fun r => classificationDecision r none)
    else
      let attempt : Except String WorkflowSelectionDecision :=
        match directResult with
        | .error e => .error e
        | .ok selectedName =>
          match mapLookup procs selectedName with
          | none =>
            .error ("Selected workflow " ++ selectedName ++ " not found in registry")
          | some procedure =>
            .ok { workflowName := selectedName, procedure,
                  selectionMode := .direct,
                  classification :=
                    inferClassificationFromWorkflow workflowDefinitions selectedName,
                  reasoning := "Directly selected workflow " ++ selectedName
                    ++ " based on issue content" }
      match attempt with
      | .ok decision => .ok decision
      | .error err =>
        (determineRoutine procs classifyResult).map
          (fun r => classificationDecision r
            (some ("Fallback to classification due to error: " ++ err)))

/-! ### Execution state machine (`ProcedureAnalyzer` session operations) -/

/-- One entry of `subroutineHistory`. -/
structure SubroutineHistoryEntry where
  subroutine : String
  completedAt : Nat
  claudeSessionId : Option String
  geminiSessionId : Option String
deriving DecidableEq, Repr

/-- `ProcedureMetadata`: per-session procedure progress record. -/
structure ProcedureMetadata where
  procedureName : String
  currentSubroutineIndex : Int
  subroutineHistory : List SubroutineHistoryEntry
deriving DecidableEq, Repr

/-- The slice of `CyrusAgentSession` the state machine reads and writes:
`session.metadata?.procedure` and `session.geminiSessionId`. -/
structure Session where
  procedureMeta : Option ProcedureMetadata
  geminiSessionId : Option String
deriving DecidableEq, Repr

/-- `getCurrentSubroutine`: the step at the current index, or `none` when the
session has no procedure metadata, the procedure is unknown, or the index is
outside `[0, len)`. -/
def getCurrentSubroutine
    (procs : List (String × ProcedureDefinition)) (s : Session) :
    Option SubroutineDefinition :=
  match s.procedureMeta with
  | none => none
  | some meta =>
    match mapLookup procs meta.procedureName with
    | none => none
    | some procedure =>
      let currentIndex := meta.currentSubroutineIndex
      if currentIndex < 0 ∨ (procedure.subroutines.length : Int) ≤ currentIndex then
        none
      else
        procedure.subroutines.get? currentIndex.toNat

/-- `getNextSubroutine`: the step after the current index, or `none` when the
procedure is complete (or metadata/procedure is missing). -/
def getNextSubroutine
    (procs : List (String × ProcedureDefinition)) (s : Session) :
    Option SubroutineDefinition :=
  match s.procedureMeta with
  | none => none
  | some meta =>
    match mapLookup procs meta.procedureName with
    | none => none
    | some procedure =>
      let nextIndex := meta.currentSubroutineIndex + 1
      if (procedure.subroutines.length : Int) ≤ nextIndex then none
      else if nextIndex < 0 then none
      else procedure.subroutines.get? nextIndex.toNat

/-- `initializeProcedureMetadata`: unconditionally installs fresh metadata
(index 0, empty history) on the session. -/
def initProcedureMetadata (s : Session) (procedure : ProcedureDefinition) :
    Session :=
  let freshMeta : ProcedureMetadata :=
    { procedureName := procedure.name, currentSubroutineIndex := 0,
      subroutineHistory := [] }
  { s with procedureMeta := some freshMeta }

/-- `advanceToNextSubroutine`: throws when the session has no procedure
metadata; otherwise appends a history record for the current step (when one
exists, carrying the Claude or Gemini session id) and increments the index
unconditionally.  `now` stands for `Date.now()`. -/
def advanceToNextSubroutine
    (procs : List (String × ProcedureDefinition)) (s : Session)
    (sessionId : Option String) (now : Nat) :
    Except String Session :=
  match s.procedureMeta with
  | none => .error "Cannot advance: session has no procedure metadata"
  | some meta =>
    let newHistory :=
      match getCurrentSubroutine procs s with
      | some currentSubroutine =>
        let isGeminiSession := s.geminiSessionId.isSome
        meta.subroutineHistory
          ++ [{ subroutine := currentSubroutine.name, completedAt := now,
                claudeSessionId := if isGeminiSession then none else sessionId,
                geminiSessionId := if isGeminiSession then sessionId else none }]
      | none => meta.subroutineHistory
    let newMeta : ProcedureMetadata :=
      { meta with
        subroutineHistory := newHistory,
        currentSubroutineIndex := meta.currentSubroutineIndex + 1 }
    .ok { s with procedureMeta := some newMeta }

/-- `isProcedureComplete`. -/
def isProcedureComplete
    (procs : List (String × ProcedureDefinition)) (s : Session) : Bool :=
  (getNextSubroutine procs s).isNone

/-- Iterate `advanceToNextSubroutine` `k` times (timestamps fixed at 0). -/
def advanceN (procs : List (String × ProcedureDefinition))
    (sessionId : Option String) : Nat → Session → Except String Session
  | 0, s => .ok s
  | k + 1, s =>
    match advanceToNextSubroutine procs s sessionId 0 with
    | .error e => .error e
    | .ok s2 => advanceN procs sessionId k s2

/-- The current-step index of a session, when procedure metadata exists. -/
def sessionIndex (s : Session) : Option Int :=
  s.procedureMeta.map (fun m => m.currentSubroutineIndex)

/-! ### Workflow parser (`WorkflowParser.ts`)

A parsed YAML document is modelled as a `JValue` tree (the value returned by
`yaml.parse`).  `parseStructure` performs exactly the structural checks of
`WorkflowParser.parse` (lines 125-199) and, on success, reads the checked
document into a `WorkflowCollection` (the TypeScript code casts instead; the
decode performs the same field accesses the rest of the code would).  The
content-level checks of lines 112-123 (empty string, YAML syntax error) are
modelled by `parseFile`, whose input is the YAML parser outcome. -/

/-- A parsed YAML/JSON document value. -/
inductive JValue where
  | null
  | bool (b : Bool)
  | num (n : Int)
  | str (s : String)
  | arr (elems : List JValue)
  | obj (fields : List (String × JValue))

/-- Object field access (`obj[key]`). -/
def getJField (fields : List (String × JValue)) (k : String) : Option JValue :=
  (fields.find? (fun p => p.1 == k)).map (fun p => p.2)

/-- Read a string value. -/
def JValue.asStr : JValue → Option String
  | .str s => some s
  | _ => none

/-- Read a boolean value. -/
def JValue.asBool : JValue → Option Bool
  | .bool b => some b
  | _ => none

/-- Read a numeric value. -/
def JValue.asNum : JValue → Option Int
  | .num n => some n
  | _ => none

/-- Read an object value. -/
def JValue.asObj : JValue → Option (List (String × JValue))
  | .obj fields => some fields
  | _ => none

/-- Read an array of strings (non-string elements are dropped). -/
def decodeStringList : JValue → List String
  | .arr elems => elems.filterMap JValue.asStr
  | _ => []

/-- Read one `subroutines` entry into a `SubroutineReference` (the field
accesses later code performs on the cast value). -/
def decodeSubroutine (v : JValue) : SubroutineReference :=
  match v with
  | .obj fields =>
    { name := ((getJField fields "name").bind JValue.asStr).getD ""
    , prompt_file := ((getJField fields "prompt_file").bind JValue.asStr).getD ""
    , description := (getJField fields "description").bind JValue.asStr
    , single_turn := (getJField fields "single_turn").bind JValue.asBool
    , validation_loop := (getJField fields "validation_loop").bind JValue.asBool
    , max_iterations := (getJField fields "max_iterations").bind JValue.asNum
    , disallow_tools := (getJField fields "disallow_tools").bind JValue.asBool
    , disallowed_tools := (getJField fields "disallowed_tools").map decodeStringList
    , requires_approval := (getJField fields "requires_approval").bind JValue.asBool
    , suppress_thought_posting :=
        (getJField fields "suppress_thought_posting").bind JValue.asBool
    , skip_linear_post := (getJField fields "skip_linear_post").bind JValue.asBool }
  | _ => { name := "", prompt_file := "" }

/-- Read a `triggers` object. -/
def decodeTriggers (v : JValue) : Option WorkflowTriggers :=
  (JValue.asObj v).map (fun fields =>
    { classifications := (getJField fields "classifications").map
        (fun x => (decodeStringList x).filterMap classificationOfString)
    , labels := (getJField fields "labels").map decodeStringList
    , keywords := (getJField fields "keywords").map decodeStringList
    , examples := (getJField fields "examples").map decodeStringList })

/-- Read one `workflows` entry into a `WorkflowDefinition`. -/
def decodeWorkflow (v : JValue) : WorkflowDefinition :=
  match v with
  | .obj fields =>
    { name := ((getJField fields "name").bind JValue.asStr).getD ""
    , description := ((getJField fields "description").bind JValue.asStr).getD ""
    , triggers := (getJField fields "triggers").bind decodeTriggers
    , priority := (getJField fields "priority").bind JValue.asNum
    , subroutines :=
        (((getJField fields "subroutines").bind
          (fun s => match s with | .arr elems => some elems | _ => none)).getD
            []).map decodeSubroutine }
  | _ => { name := "", description := "" }

/-- Structural check of one subroutine entry (lines 179-196): an object with
a `name` string and a `prompt_file` string. -/
def checkSubroutine (workflowName : String) (j : Nat) (v : JValue) :
    Except String Unit :=
  match v with
  | .obj fields =>
    match getJField fields "name" with
    | some (.str subName) =>
      match getJField fields "prompt_file" with
      | some (.str _) => .ok ()
      | _ => .error ("Subroutine " ++ subName ++ " in workflow " ++ workflowName
          ++ " must have a prompt_file string")
    | _ => .error ("Subroutine at index " ++ toString j ++ " in workflow "
        ++ workflowName ++ " must have a name string")
  | _ => .error ("Subroutine at index " ++ toString j ++ " in workflow "
      ++ workflowName ++ " must be an object")

/-- Check every subroutine entry in order, stopping at the first failure. -/
def checkSubroutines (workflowName : String) (j : Nat) :
    List JValue → Except String Unit
  | [] => .ok ()
  | v :: rest =>
    match checkSubroutine workflowName j v with
    | .error e => .error e
    | .ok _ => checkSubroutines workflowName (j + 1) rest

/-- Structural check of one workflow entry (lines 148-197): an object with a
`name` string, a `description` string, and a non-empty `subroutines` array
whose entries all pass `checkSubroutine`. -/
def checkWorkflow (i : Nat) (v : JValue) : Except String Unit :=
  match v with
  | .obj fields =>
    match getJField fields "name" with
    | some (.str workflowName) =>
      match getJField fields "description" with
      | some (.str _) =>
        match getJField fields "subroutines" with
        | some (.arr subs) =>
          if subs.isEmpty then
            .error ("Workflow " ++ workflowName
              ++ " must have at least one subroutine")
          else checkSubroutines workflowName 0 subs
        | _ => .error ("Workflow " ++ workflowName
            ++ " must have a subroutines array")
      | _ => .error ("Workflow " ++ workflowName
          ++ " must have a description string")
    | _ => .error ("Workflow at index " ++ toString i
        ++ " must have a name string")
  | _ => .error ("Workflow at index " ++ toString i ++ " must be an object")

/-- Check every workflow entry in order, stopping at the first failure. -/
def checkWorkflows (i : Nat) : List JValue → Except String Unit
  | [] => .ok ()
  | v :: rest =>
    match checkWorkflow i v with
    | .error e => .error e
    | .ok _ => checkWorkflows (i + 1) rest

/-- `WorkflowParser.parse` on an already-YAML-parsed document: top-level
shape checks, then the per-entry structural checks; on success the checked
collection. -/
def parseStructure (v : JValue) : Except String WorkflowCollection :=
  match v with
  | .null => .error "YAML content is empty or null"
  | .arr _ => .error "YAML must be an object with a workflows array"
  | .obj fields =>
    match getJField fields "workflows" with
    | none => .error "YAML must contain a workflows property"
    | some wv =>
      match wv with
      | .arr ws =>
        if ws.isEmpty then .error "workflows array cannot be empty"
        else
          match checkWorkflows 0 ws with
          | .error e => .error e
          | .ok _ => .ok { workflows := ws.map decodeWorkflow }
      | _ => .error "workflows must be an array"
  | _ => .error "YAML must be an object with a workflows array"

/-- `WorkflowParser.parse` on raw file content: a YAML syntax error is
re-thrown with a `Failed to parse YAML` prefix, otherwise the document is
checked structurally. -/
def parseFile (yamlOutcome : Except String JValue) :
    Except String WorkflowCollection :=
  match yamlOutcome with
  | .error m => .error ("Failed to parse YAML: " ++ m)
  | .ok v => parseStructure v

/-- Result of schema validation (`ValidationResult` in `WorkflowParser.ts`,
re-exported as `WorkflowValidationResult`). -/
structure WorkflowValidationResult where
  valid : Bool
  errors : Option (List String) := none

/-- `WorkflowParser.validate`: when no schema validator could be loaded,
validation passes by design; otherwise the compiled validator (modelled as a
function argument) decides. -/
def validateCollection
    (validator : Option (WorkflowCollection → WorkflowValidationResult))
    (c : WorkflowCollection) : WorkflowValidationResult :=
  match validator with
  | none => { valid := true }
  | some f => f c

/-- `WorkflowParser.parseAndValidate` on an already-YAML-parsed file. -/
def parseAndValidate
    (validator : Option (WorkflowCollection → WorkflowValidationResult))
    (yamlOutcome : Except String JValue) : Except String WorkflowCollection :=
  match parseFile yamlOutcome with
  | .error e => .error e
  | .ok c =>
    let vr := validateCollection validator c
    if vr.valid then .ok c
    else .error ("Workflow validation failed:\n"
      ++ String.intercalate "\n" (vr.errors.getD []))

/-- `DirectoryParseResult`: merged collection, parsed filenames, error map
(an insertion-ordered filename map, like the record the source builds). -/
structure DirectoryParseResult where
  collection : WorkflowCollection
  parsedFiles : List String
  errors : List (String × String)

/-- The accumulator threaded through the `parseDirectory` loop:
`workflowsByName` map, `parsedFiles`, `errors`. -/
structure DirAcc where
  byName : List (String × WorkflowDefinition)
  parsed : List String
  errs : List (String × String)

/-- One iteration of the `parseDirectory` loop: parse the file; on success
set each of its workflows into the name map and record the filename; on
failure record the error against the filename. -/
def dirStep (validator : Option (WorkflowCollection → WorkflowValidationResult))
    (acc : DirAcc) (file : String × Except String JValue) : DirAcc :=
  match parseAndValidate validator file.2 with
  | .ok c =>
    { acc with
      byName := c.workflows.foldl (fun m w => mapSet m w.name w) acc.byName,
      parsed := acc.parsed ++ [file.1] }
  | .error e => { acc with errs := acc.errs ++ [(file.1, e)] }

/-- `WorkflowParser.parseDirectory` on a directory listing, given as the
filename/YAML-outcome pairs of its `.yaml`/`.yml` files (the filesystem read
is I/O): sort filenames, process each file isolating per-file failures, and
list the merged map values.  The missing/non-directory cases are filesystem
conditions outside the model; the empty-listing case is kept. -/
def parseDirectory
    (validator : Option (WorkflowCollection → WorkflowValidationResult))
    (files : List (String × Except String JValue)) : DirectoryParseResult :=
  if files.isEmpty then
    { collection := { workflows := [] }, parsedFiles := [],
      errors := [("_directory", "No YAML files found in directory")] }
  else
    let sorted := stableSortBy (fun x y => strLt x.1 y.1) files
    let acc := sorted.foldl (dirStep validator) { byName := [], parsed := [], errs := [] }
    { collection := { workflows := acc.byName.map (fun p => p.2) },
      parsedFiles := acc.parsed, errors := acc.errs }

/-! ### Conversion to procedures (`toSubroutineDefinition`, lines 343-386) -/

/-- Simplified model of `path.join` for the relative references that occur
here: concatenation with a single separator (no normalization). -/
def pathJoin (a b : String) : String :=
  if a = "" then b else if b = "" then a else a ++ "/" ++ b

/-- `WorkflowParser.toSubroutineDefinition`: resolve the prompt path, default
the description to the name (also when the description is the empty string,
which is falsy), and copy each optional flag only when present. -/
def toSubroutineDefinition (ref : SubroutineReference) (promptBasePath : String) :
    SubroutineDefinition :=
  { name := ref.name
  , promptPath := pathJoin promptBasePath ref.prompt_file
  , description :=
      match ref.description with
      | some d => if d = "" then ref.name else d
      | none => ref.name
  , singleTurn := ref.single_turn
  , usesValidationLoop := ref.validation_loop
  , disallowAllTools := ref.disallow_tools
  , disallowedTools := ref.disallowed_tools
  , requiresApproval := ref.requires_approval
  , suppressThoughtPosting := ref.suppress_thought_posting
  , skipLinearPost := ref.skip_linear_post }

/-- `WorkflowParser.toProcedureDefinition`. -/
def toProcedureDefinition (workflow : WorkflowDefinition)
    (promptBasePath : String) : ProcedureDefinition :=
  { name := workflow.name
  , description := workflow.description
  , subroutines := workflow.subroutines.map
      (fun ref => toSubroutineDefinition ref promptBasePath) }

/-! ### Validation loop controller

Modelled from the spec: the validation loop implementation (the
`validation/` module of the edge worker) is not among the provided sources;
only its re-export list in `src/packages/edge-worker/src/index.ts` appears.
Spec section 4.5: `ValidationLoopState` holds `iterationCount`,
`maxIterations` (default 3) and `lastResult`; `shouldRetry(state)` is true
iff the last result's `pass` is false and `iterationCount < maxIterations`;
`recordIteration(state, result)` increments the count and stores the
result. -/

/-- Modelled from the spec: the structured verdict of a checks step (`pass`
boolean plus failure descriptions). -/
structure ValidationResult where
  pass : Bool
  failures : List String := []
deriving DecidableEq, Repr

/-- Modelled from the spec: the state of one validation loop. -/
structure ValidationLoopState where
  iterationCount : Nat
  maxIterations : Nat := 3
  lastResult : Option ValidationResult := none
deriving DecidableEq, Repr

/-- Modelled from the spec: `shouldRetry(state)` is true iff the last
result's `pass` is false and `iterationCount < maxIterations` (with no
recorded result there is no failing last result, so no retry). -/
def shouldRetry (st : ValidationLoopState) : Bool :=
  match st.lastResult with
  | some r => !r.pass && st.iterationCount < st.maxIterations
  | none => false

/-- Modelled from the spec: `recordIteration(state, result)` increments the
count and stores the result as last. -/
def recordIteration (st : ValidationLoopState) (r : ValidationResult) :
    ValidationLoopState :=
  { st with iterationCount := st.iterationCount + 1, lastResult := some r }

/-- Record a sequence of results in order. -/
def recordAll (st : ValidationLoopState) (rs : List ValidationResult) :
    ValidationLoopState :=
  rs.foldl recordIteration st

/-! ### Concrete example inputs and auxiliary definitions used by the theorems -/

/-- A session with no procedure metadata. -/
def emptySession : Session := { procedureMeta := none, geminiSessionId := none }

/-- A history entry of a session that already ran one step. -/
def c5history : SubroutineHistoryEntry :=
  { subroutine := "release-execution", completedAt := 5,
    claudeSessionId := some "cs0", geminiSessionId := none }

/-- Procedure metadata of a session mid-procedure. -/
def c5meta : ProcedureMetadata :=
  { procedureName := "release", currentSubroutineIndex := 1,
    subroutineHistory := [c5history] }

/-- A session that already has procedure state. -/
def c5sessionWithState : Session :=
  { procedureMeta := some c5meta, geminiSessionId := none }

/-- A minimal subroutine reference with every optional flag absent. -/
def c6ref : SubroutineReference :=
  { name := "coding-activity", prompt_file := "prompts/coding-activity.md" }

/-- A workflow containing `c6ref`. -/
def c6workflow : WorkflowDefinition :=
  { name := "custom-dev", description := "Custom development workflow",
    subroutines := [c6ref] }

/-- A failing validation result. -/
def failingResult : ValidationResult := { pass := false, failures := ["tests failed"] }

/-- C2 counterexample to the claimed `selectionMode = label`: in the spec's
own scenario (issue label `bug`; candidates `debug` with trigger `bug`,
priority 15, and `dev` with trigger `feature`, priority 10), the selector
picks `debug` via label match but records `selectionMode = direct`; no
`label` mode is ever produced by the code. -/
def c2debugWorkflow : WorkflowDefinition :=
  { name := "debug", description := "Debug workflow",
    triggers := some { labels := some ["bug"] }, priority := some 15 }

/-- The second candidate of the C2 scenario. -/
def c2devWorkflow : WorkflowDefinition :=
  { name := "dev", description := "Dev workflow",
    triggers := some { labels := some ["feature"] }, priority := some 10 }

/-- The loaded definitions of the C2 scenario. -/
def c2defs : List WorkflowDefinition := [c2debugWorkflow, c2devWorkflow]

/-- The procedure map of the C2 scenario: both candidate names resolve. -/
def c2procs : List (String × ProcedureDefinition) :=
  [("debug", debuggerFull), ("dev", fullDevelopment)]

/-- The key list of an insertion-order map. -/
def mapKeys {α : Type} (m : List (String × α)) : List String :=
  m.map (fun p => p.1)

/-- Well-formedness of a workflows-by-name map: distinct keys, and each
entry's key is its workflow's name. -/
def NamedMap (m : List (String × WorkflowDefinition)) : Prop :=
  (mapKeys m).Nodup ∧ ∀ p ∈ m, p.1 = p.2.name

/-- The last workflow named `n` in a file's workflow list (the value the
by-name map holds for `n` after processing that list), threading an
accumulator the way the merge loop does. -/
def scanNamed (n : String) (ws : List WorkflowDefinition)
    (acc : Option WorkflowDefinition) : Option WorkflowDefinition :=
  ws.foldl (fun a w => if w.name == n then some w else a) acc

/-- The error entries the directory loop accumulates over a file list. -/
def dirErrors (validator : Option (WorkflowCollection → WorkflowValidationResult))
    (files : List (String × Except String JValue)) : List (String × String) :=
  files.filterMap (fun fv =>
    match parseAndValidate validator fv.2 with
    | .error e => some (fv.1, e)
    | .ok _ => none)

/-- The successfully parsed filenames the directory loop accumulates. -/
def dirParsed (validator : Option (WorkflowCollection → WorkflowValidationResult))
    (files : List (String × Except String JValue)) : List String :=
  files.filterMap (fun fv =>
    match parseAndValidate validator fv.2 with
    | .error _ => none
    | .ok _ => some fv.1)

/-- A subroutine entry of the C7 earlier file. -/
def c7subA : JValue :=
  JValue.obj [("name", JValue.str "step-a"), ("prompt_file", JValue.str "a.md")]

/-- The `deploy` workflow as defined by the earlier file. -/
def c7wfA : JValue :=
  JValue.obj [("name", JValue.str "deploy"), ("description", JValue.str "first"),
    ("subroutines", JValue.arr [c7subA])]

/-- A subroutine entry of the C7 later file. -/
def c7subB : JValue :=
  JValue.obj [("name", JValue.str "step-b"), ("prompt_file", JValue.str "b.md")]

/-- The `deploy` workflow as redefined by the later file. -/
def c7wfB : JValue :=
  JValue.obj [("name", JValue.str "deploy"), ("description", JValue.str "second"),
    ("subroutines", JValue.arr [c7subB])]

/-- The earlier file document. -/
def c7fileA : JValue := JValue.obj [("workflows", JValue.arr [c7wfA])]

/-- The later file document. -/
def c7fileB : JValue := JValue.obj [("workflows", JValue.arr [c7wfB])]

/-- A structurally invalid file document (empty `workflows` array). -/
def c8badFile : JValue := JValue.obj [("workflows", JValue.arr [])]

/-- The C8 scenario directory: one valid and one invalid file. -/
def c8files : List (String × Except String JValue) :=
  [("a.yaml", Except.ok c7fileA), ("z.yaml", Except.ok c8badFile)]

/-- Whether an `Except` value is an error (a thrown exception). -/
def exceptIsError {ε α : Type} : Except ε α → Bool
  | .error _ => true
  | .ok _ => false

/-- A structurally valid workflow entry of the C10 scenario file. -/
def c10goodSub : JValue :=
  JValue.obj [("name", JValue.str "s1"), ("prompt_file", JValue.str "p.md")]

/-- The valid entry. -/
def c10goodWf : JValue :=
  JValue.obj [("name", JValue.str "good-flow"), ("description", JValue.str "ok"),
    ("subroutines", JValue.arr [c10goodSub])]

/-- A subroutine entry missing `prompt_file`. -/
def c10badSub : JValue := JValue.obj [("name", JValue.str "s2")]

/-- The invalid entry (its subroutine lacks `prompt_file`). -/
def c10badWf : JValue :=
  JValue.obj [("name", JValue.str "bad-flow"), ("description", JValue.str "bad"),
    ("subroutines", JValue.arr [c10badSub])]

/-- The C10 scenario `workflows` array: one valid and one invalid entry. -/
def c10ws : List JValue := [c10goodWf, c10badWf]

/-! ### Helper lemmas -/

theorem sessionIndex_init (s : Session) (p : ProcedureDefinition) :
    sessionIndex (initProcedureMetadata s p) = some 0 := rfl

theorem advance_ok_of_meta (procs : List (String × ProcedureDefinition))
    (s : Session) (sid : Option String) (now : Nat) (i : Int)
    (h : sessionIndex s = some i) :
    ∃ s2, advanceToNextSubroutine procs s sid now = Except.ok s2
      ∧ sessionIndex s2 = some (i + 1) := by
  rcases s with ⟨meta, g⟩
  cases meta with
  | none => simp [sessionIndex] at h
  | some m =>
    have hm : m.currentSubroutineIndex = i := by
      simpa [sessionIndex] using h
    refine ⟨_, rfl, ?_⟩
    simp [advanceToNextSubroutine, sessionIndex, hm]

theorem advanceN_adds (procs : List (String × ProcedureDefinition))
    (sid : Option String) (k : Nat) :
    ∀ (s : Session) (i : Int), sessionIndex s = some i →
    ∃ s2, advanceN procs sid k s = Except.ok s2
      ∧ sessionIndex s2 = some (i + k) := by
  induction k with
  | zero =>
    intro s i h
    exact ⟨s, rfl, by simpa using h⟩
  | succ k ih =>
    intro s i h
    obtain ⟨s1, h1, hidx1⟩ := advance_ok_of_meta procs s sid 0 i h
    obtain ⟨s2, h2, hidx2⟩ := ih s1 (i + 1) hidx1
    refine ⟨s2, ?_, ?_⟩
    · simp [advanceN, h1, h2]
    · rw [hidx2]
      congr 1
      push_cast
      ring

/-- C1: when the classification call to the external runner fails, the
selector's classification tier does not propagate the failure: it returns a
decision with the `code` classification and the registered `full-development`
procedure, with the error text embedded in the reasoning string.  The
`full-development` key is present in every constructed analyzer map (the
predefined registry contains it and overrides only replace values). -/
theorem determineRoutine_error_fallback
    (procs : List (String × ProcedureDefinition)) (fp : ProcedureDefinition)
    (e : String) (h : mapLookup procs "full-development" = some fp) :
    determineRoutine procs (Except.error e) =
      Except.ok { classification := RequestClassification.code, procedure := fp,
                  reasoning := "Fallback to full-development due to error: " ++ e } := by
  simp [determineRoutine, h]

/-- C1 witness: the registry map contains `full-development`, and a concrete
runner failure yields the fallback decision. -/
theorem determineRoutine_error_fallback_witness :
    mapLookup PROCEDURES "full-development" = some fullDevelopment ∧
    determineRoutine PROCEDURES (Except.error "Runner timeout") =
      Except.ok { classification := RequestClassification.code,
                  procedure := fullDevelopment,
                  reasoning := "Fallback to full-development due to error: Runner timeout" } := by
  have h : mapLookup PROCEDURES "full-development" = some fullDevelopment := by rfl
  exact ⟨h, determineRoutine_error_fallback PROCEDURES fullDevelopment "Runner timeout" h⟩

/-- C4 counterexample: on the built-in 2-step `simple-question` procedure,
calling advance three times from a fresh session succeeds and leaves
`currentSubroutineIndex = 3`, outside `[0, len(steps)] = [0, 2]`: the
advance made at the terminal index is neither rejected nor a no-op. -/
theorem advance_past_terminal_counterexample :
    simpleQuestion.subroutines.length = 2 ∧
    (advanceN PROCEDURES (some "cs1") 3
        (initProcedureMetadata emptySession simpleQuestion)).map sessionIndex
      = Except.ok (some 3) ∧
    ¬ ((3 : Int) ≤ 2) := by
  refine ⟨rfl, rfl, by decide⟩

/-- C4 amended: the index never wraps and never goes negative, but it is not
clamped either: from a fresh session, every advance call succeeds (even past
the terminal index) and after `k` advance calls `currentSubroutineIndex`
is exactly `k`, which exceeds `len(steps)` once `k` does. -/
theorem advanceN_index (procs : List (String × ProcedureDefinition))
    (s : Session) (p : ProcedureDefinition) (sid : Option String) (k : Nat) :
    ∃ s2, advanceN procs sid k (initProcedureMetadata s p) = Except.ok s2
      ∧ sessionIndex s2 = some (k : Int) := by
  obtain ⟨s2, h1, h2⟩ :=
    advanceN_adds procs sid k (initProcedureMetadata s p) 0 (sessionIndex_init s p)
  exact ⟨s2, h1, by simpa using h2⟩

/-- C5 counterexample: initializing a session that already has procedure
state does not fail: it silently creates fresh state (index 0, empty
history) for the new procedure, discarding the existing state. -/
theorem initProcedureMetadata_overwrites_counterexample :
    c5sessionWithState.procedureMeta ≠ none ∧
    (initProcedureMetadata c5sessionWithState planMode).procedureMeta =
      some { procedureName := "plan-mode", currentSubroutineIndex := 0,
             subroutineHistory := [] } := by
  exact ⟨by decide, rfl⟩

/-- C5 amended: `initialize` never fails; on any session, also one that
already has procedure state, it unconditionally installs fresh metadata
(index 0, empty history) for the given procedure. -/
theorem initProcedureMetadata_always_fresh (s : Session) (p : ProcedureDefinition) :
    (initProcedureMetadata s p).procedureMeta =
      some { procedureName := p.name, currentSubroutineIndex := 0,
             subroutineHistory := [] } ∧
    (initProcedureMetadata s p).geminiSessionId = s.geminiSessionId :=
  ⟨rfl, rfl⟩

/-- C6: converting a workflow definition to a procedure copies each optional
behavioral flag only when present: a flag absent on the source step is
absent on the converted step, never defaulted to false or empty. -/
theorem optional_flags_absent (workflow : WorkflowDefinition) (basePath : String)
    (ref : SubroutineReference) (h : ref ∈ workflow.subroutines) :
    toSubroutineDefinition ref basePath
        ∈ (toProcedureDefinition workflow basePath).subroutines
    ∧ (ref.single_turn = none →
        (toSubroutineDefinition ref basePath).singleTurn = none)
    ∧ (ref.validation_loop = none →
        (toSubroutineDefinition ref basePath).usesValidationLoop = none)
    ∧ (ref.disallow_tools = none →
        (toSubroutineDefinition ref basePath).disallowAllTools = none)
    ∧ (ref.disallowed_tools = none →
        (toSubroutineDefinition ref basePath).disallowedTools = none)
    ∧ (ref.requires_approval = none →
        (toSubroutineDefinition ref basePath).requiresApproval = none)
    ∧ (ref.suppress_thought_posting = none →
        (toSubroutineDefinition ref basePath).suppressThoughtPosting = none)
    ∧ (ref.skip_linear_post = none →
        (toSubroutineDefinition ref basePath).skipLinearPost = none) := by
  refine ⟨?_, ?_, ?_, ?_, ?_, ?_, ?_, ?_⟩
  · exact List.mem_map_of_mem _ h
  all_goals intro hx
  all_goals simp [toSubroutineDefinition, hx]

/-- C6 witness: conversion of a concrete one-step workflow whose step has no
optional flags. -/
theorem optional_flags_absent_witness :
    c6ref ∈ c6workflow.subroutines ∧
    (toSubroutineDefinition c6ref "workflows").singleTurn = none ∧
    (toSubroutineDefinition c6ref "workflows").skipLinearPost = none := by
  have h : c6ref ∈ c6workflow.subroutines := by decide
  have main := optional_flags_absent c6workflow "workflows" c6ref h
  exact ⟨h, main.2.1 rfl, main.2.2.2.2.2.2.2 rfl⟩

theorem recordAll_fail (st : ValidationLoopState) (rs : List ValidationResult)
    (hst : ∃ r, st.lastResult = some r ∧ r.pass = false)
    (hrs : ∀ r ∈ rs, r.pass = false) :
    (recordAll st rs).iterationCount = st.iterationCount + rs.length
    ∧ (recordAll st rs).maxIterations = st.maxIterations
    ∧ ∃ r, (recordAll st rs).lastResult = some r ∧ r.pass = false := by
  induction rs generalizing st with
  | nil => exact ⟨rfl, rfl, hst⟩
  | cons r rest ih =>
    have hstep : recordAll st (r :: rest) = recordAll (recordIteration st r) rest := rfl
    have hr : r.pass = false := hrs r (by simp)
    obtain ⟨hc, hm, hl⟩ := ih (recordIteration st r) ⟨r, rfl, hr⟩
      (fun x hx => hrs x (by simp [hx]))
    rw [hstep]
    refine ⟨?_, ?_, hl⟩
    · rw [hc]; simp [recordIteration]; omega
    · rw [hm]; rfl

/-- C9: `shouldRetry` is true iff the last recorded result failed and the
iteration count is below the maximum; with `maxIterations = 3` and only
failing results, exactly 3 `recordIteration` calls are permitted before
`shouldRetry` turns false (it is true after fewer than 3 and false from 3
on, regardless of the particular failing results). -/
theorem shouldRetry_iff_and_bound :
    (∀ st : ValidationLoopState,
      shouldRetry st = true ↔
        ((∃ r, st.lastResult = some r ∧ r.pass = false)
          ∧ st.iterationCount < st.maxIterations))
    ∧ (∀ (first : ValidationResult) (rs : List ValidationResult),
        first.pass = false → (∀ r ∈ rs, r.pass = false) →
        shouldRetry (recordAll
            { iterationCount := 0, maxIterations := 3, lastResult := some first } rs)
          = decide (rs.length < 3)) := by
  constructor
  · intro st
    cases hl : st.lastResult with
    | none => simp [shouldRetry, hl]
    | some r =>
      cases hp : r.pass with
      | false => simp [shouldRetry, hl, hp]
      | true => simp [shouldRetry, hl, hp]
  · intro first rs hfirst hrs
    obtain ⟨hc, hm, r, hlast, hpass⟩ :=
      recordAll_fail { iterationCount := 0, maxIterations := 3, lastResult := some first }
        rs ⟨first, rfl, hfirst⟩ hrs
    simp only [shouldRetry, hlast, hpass, hc, hm]
    simp

/-- C9 witness: with three failing iterations recorded, retry stops exactly
at the third. -/
theorem shouldRetry_iff_and_bound_witness :
    failingResult.pass = false ∧
    shouldRetry (recordAll
        { iterationCount := 0, maxIterations := 3, lastResult := some failingResult }
        [failingResult, failingResult])
      = decide (([failingResult, failingResult] : List ValidationResult).length < 3) ∧
    shouldRetry (recordAll
        { iterationCount := 0, maxIterations := 3, lastResult := some failingResult }
        [failingResult, failingResult, failingResult])
      = decide (([failingResult, failingResult, failingResult] : List ValidationResult).length < 3) := by
  refine ⟨rfl, ?_, ?_⟩
  · exact shouldRetry_iff_and_bound.2 failingResult [failingResult, failingResult]
      rfl (by decide)
  · exact shouldRetry_iff_and_bound.2 failingResult
      [failingResult, failingResult, failingResult] rfl (by decide)

/-! ### Sorting lemmas for the label-match priority order -/

theorem mem_insortBy {α : Type} (bf : α → α → Bool) (x a : α) (l : List α) :
    a ∈ insortBy bf x l ↔ a = x ∨ a ∈ l := by
  induction l with
  | nil => simp [insortBy]
  | cons y ys ih =>
    by_cases h : bf x y
    · simp [insortBy, h]
    · simp [insortBy, h, ih]
      tauto

theorem mem_stableSortBy {α : Type} (bf : α → α → Bool) (l : List α) (a : α) :
    a ∈ stableSortBy bf l ↔ a ∈ l := by
  suffices h : ∀ acc : List α,
      (a ∈ l.foldl (fun acc x => insortBy bf x acc) acc ↔ a ∈ acc ∨ a ∈ l) by
    have := h []
    simpa [stableSortBy] using this
  induction l with
  | nil => intro acc; simp
  | cons x xs ih =>
    intro acc
    have := ih (insortBy bf x acc)
    simp only [List.foldl_cons] at this ⊢
    rw [this, mem_insortBy]
    simp
    tauto

theorem pairwise_insortBy (x : WorkflowDefinition) (l : List WorkflowDefinition)
    (hl : l.Pairwise (fun a b => priorityOf b ≤ priorityOf a)) :
    (insortBy byPriorityDesc x l).Pairwise
      (fun a b => priorityOf b ≤ priorityOf a) := by
  induction l with
  | nil => simp [insortBy]
  | cons y ys ih =>
    rcases List.pairwise_cons.mp hl with ⟨hy, hys⟩
    by_cases h : byPriorityDesc x y
    · have hxy : priorityOf y ≤ priorityOf x := by
        have := of_decide_eq_true h
        omega
      simp only [insortBy, h, if_pos]
      refine List.pairwise_cons.mpr ⟨?_, hl⟩
      intro z hz
      rcases List.mem_cons.mp hz with rfl | hz'
      · exact hxy
      · exact le_trans (hy z hz') hxy
    · have hyx : priorityOf x ≤ priorityOf y := by
        simpa [byPriorityDesc] using h
      simp only [insortBy, h, if_neg, Bool.false_eq_true, not_false_iff]
      refine List.pairwise_cons.mpr ⟨?_, ih hys⟩
      intro z hz
      rcases (mem_insortBy byPriorityDesc x z ys).mp hz with rfl | hz'
      · exact hyx
      · exact hy z hz'

theorem pairwise_stableSortBy (l : List WorkflowDefinition) :
    (stableSortBy byPriorityDesc l).Pairwise
      (fun a b => priorityOf b ≤ priorityOf a) := by
  suffices h : ∀ acc : List WorkflowDefinition,
      acc.Pairwise (fun a b => priorityOf b ≤ priorityOf a) →
      (l.foldl (fun acc x => insortBy byPriorityDesc x acc) acc).Pairwise
        (fun a b => priorityOf b ≤ priorityOf a) by
    exact h [] (by simp)
  induction l with
  | nil => intro acc hacc; simpa using hacc
  | cons x xs ih =>
    intro acc hacc
    simpa using ih (insortBy byPriorityDesc x acc) (pairwise_insortBy x acc hacc)

theorem head_max_stableSortBy (l : List WorkflowDefinition)
    (w : WorkflowDefinition) (hw : w ∈ l)
    (hmax : ∀ w2 ∈ l, w2 ≠ w → priorityOf w2 < priorityOf w) :
    ∃ rest, stableSortBy byPriorityDesc l = w :: rest := by
  cases hsort : stableSortBy byPriorityDesc l with
  | nil =>
    have : w ∈ stableSortBy byPriorityDesc l := (mem_stableSortBy _ _ _).mpr hw
    rw [hsort] at this
    simp at this
  | cons hd rest =>
    by_cases he : hd = w
    · exact ⟨rest, by rw [he]⟩
    · have hmem_hd : hd ∈ l := by
        have : hd ∈ stableSortBy byPriorityDesc l := by simp [hsort]
        exact (mem_stableSortBy _ _ _).mp this
      have h1 : priorityOf hd < priorityOf w := hmax hd hmem_hd he
      have hw_sorted : w ∈ hd :: rest := by
        rw [← hsort]
        exact (mem_stableSortBy _ _ _).mpr hw
      have h2 : priorityOf w ≤ priorityOf hd := by
        rcases List.mem_cons.mp hw_sorted with rfl | hw_rest
        · exact absurd rfl he
        · have hp := pairwise_stableSortBy l
          rw [hsort] at hp
          exact (List.pairwise_cons.mp hp).1 w hw_rest
      omega

theorem matchByLabels_of_sorted (defs : List WorkflowDefinition)
    (procs : List (String × ProcedureDefinition)) (a : String)
    (labels : List String) (w : WorkflowDefinition)
    (rest : List WorkflowDefinition) (p : ProcedureDefinition)
    (hsorted : stableSortBy byPriorityDesc
        (defs.filter (workflowMatchesLabels ((a :: labels).map strToLower)))
      = w :: rest)
    (hproc : mapLookup procs w.name = some p) :
    matchByLabels defs procs (some (a :: labels))
      = some (labelMatchDecision defs ((a :: labels).map strToLower) w p) := by
  simp only [matchByLabels, List.isEmpty_cons, Bool.false_eq_true, if_false,
    hsorted, hproc]

theorem selectWorkflow_of_labelMatch (defs : List WorkflowDefinition)
    (procs : List (String × ProcedureDefinition)) (labels : List String)
    (directResult : Except String String)
    (classifyResult : Except String RequestClassification)
    (d : WorkflowSelectionDecision)
    (h : matchByLabels defs procs (some labels) = some d) :
    selectWorkflow defs procs (some labels) directResult classifyResult
      = Except.ok d := by
  simp only [selectWorkflow, h]

/-- C2 counterexample: the label-matched decision carries mode `direct`,
not `label`. -/
theorem label_match_mode_counterexample :
    (selectWorkflow c2defs c2procs (some ["bug"])
        (Except.error "unused") (Except.error "unused")).map
        (fun d => (d.workflowName, d.selectionMode))
      = Except.ok ("debug", SelectionMode.direct)
    ∧ SelectionMode.direct ≠ SelectionMode.label := by
  exact ⟨rfl, by decide⟩

/-- C2 amended: for a non-empty issue label set, if exactly one loaded
definition's trigger labels intersect the issue labels (and its name
resolves in the procedure map), `select` returns that candidate — but with
`selectionMode = direct` (the code has no `label` mode; the label origin is
recorded in the reasoning text instead). -/
theorem label_match_unique_selects (defs : List WorkflowDefinition)
    (procs : List (String × ProcedureDefinition)) (labels : List String)
    (w : WorkflowDefinition) (p : ProcedureDefinition)
    (directResult : Except String String)
    (classifyResult : Except String RequestClassification)
    (hne : labels ≠ [])
    (hfilter : defs.filter (workflowMatchesLabels (labels.map strToLower))
      = [w])
    (hproc : mapLookup procs w.name = some p) :
    ∃ d, selectWorkflow defs procs (some labels) directResult classifyResult
        = Except.ok d
      ∧ d.workflowName = w.name ∧ d.procedure = p
      ∧ d.selectionMode = SelectionMode.direct := by
  cases labels with
  | nil => exact absurd rfl hne
  | cons a as =>
    have hsorted : stableSortBy byPriorityDesc
        (defs.filter (workflowMatchesLabels ((a :: as).map strToLower)))
        = [w] := by
      rw [hfilter]; rfl
    have hmatch := matchByLabels_of_sorted defs procs a as w [] p hsorted hproc
    exact ⟨_, selectWorkflow_of_labelMatch defs procs (a :: as) directResult
      classifyResult _ hmatch, rfl, rfl, rfl⟩

/-- C2 witness: the amended statement at the scenario input. -/
theorem label_match_unique_selects_witness :
    (["bug"] : List String) ≠ [] ∧
    c2defs.filter (workflowMatchesLabels ((["bug"] : List String).map strToLower))
      = [c2debugWorkflow] ∧
    mapLookup c2procs c2debugWorkflow.name = some debuggerFull ∧
    ∃ d, selectWorkflow c2defs c2procs (some ["bug"])
        (Except.error "unused2") (Except.error "unused2")
        = Except.ok d
      ∧ d.workflowName = c2debugWorkflow.name ∧ d.procedure = debuggerFull
      ∧ d.selectionMode = SelectionMode.direct := by
  refine ⟨by decide, by rfl, by rfl, ?_⟩
  exact label_match_unique_selects c2defs c2procs ["bug"] c2debugWorkflow
    debuggerFull (Except.error "unused2") (Except.error "unused2")
    (by decide) (by rfl) (by rfl)

/-- C3: among the loaded definitions whose trigger labels intersect the
issue labels (case-insensitively, with absent priority read as 0), the
selector chooses the one with strictly greatest priority; and matching is
case-insensitive: the issue label `BUG` matches the trigger label `bug` of
the scenario candidate. -/
theorem highest_priority_label_match :
    (∀ (defs : List WorkflowDefinition)
        (procs : List (String × ProcedureDefinition)) (labels : List String)
        (w : WorkflowDefinition) (p : ProcedureDefinition)
        (directResult : Except String String)
        (classifyResult : Except String RequestClassification),
      labels ≠ [] →
      w ∈ defs →
      workflowMatchesLabels (labels.map strToLower) w = true →
      (∀ w2 ∈ defs, workflowMatchesLabels (labels.map strToLower) w2 = true →
        w2 ≠ w → priorityOf w2 < priorityOf w) →
      mapLookup procs w.name = some p →
      ∃ d, selectWorkflow defs procs (some labels) directResult classifyResult
          = Except.ok d
        ∧ d.workflowName = w.name ∧ d.procedure = p)
    ∧ (matchByLabels c2defs c2procs (some ["BUG"])).map
        (fun d => d.workflowName) = some "debug" := by
  constructor
  · intro defs procs labels w p directResult classifyResult hne hw hwm hmax hproc
    cases labels with
    | nil => exact absurd rfl hne
    | cons a as =>
      have hwf : w ∈ defs.filter (workflowMatchesLabels ((a :: as).map strToLower)) :=
        List.mem_filter.mpr ⟨hw, hwm⟩
      have hmaxf : ∀ w2 ∈ defs.filter (workflowMatchesLabels ((a :: as).map strToLower)),
          w2 ≠ w → priorityOf w2 < priorityOf w := by
        intro w2 hw2 hne2
        have := List.mem_filter.mp hw2
        exact hmax w2 this.1 this.2 hne2
      obtain ⟨rest, hsorted⟩ := head_max_stableSortBy _ w hwf hmaxf
      have hmatch := matchByLabels_of_sorted defs procs a as w rest p hsorted hproc
      exact ⟨_, selectWorkflow_of_labelMatch defs procs (a :: as) directResult
        classifyResult _ hmatch, rfl, rfl⟩
  · rfl

/-- C3 witness: the universal part at the scenario input (two candidates,
the matching one has strictly greatest priority). -/
theorem highest_priority_label_match_witness :
    c2debugWorkflow ∈ c2defs ∧
    workflowMatchesLabels ((["bug"] : List String).map strToLower) c2debugWorkflow = true ∧
    ∃ d, selectWorkflow c2defs c2procs (some ["bug"])
        (Except.error "unused3") (Except.error "unused3")
        = Except.ok d
      ∧ d.workflowName = c2debugWorkflow.name ∧ d.procedure = debuggerFull := by
  refine ⟨by decide, by rfl, ?_⟩
  refine highest_priority_label_match.1 c2defs c2procs ["bug"] c2debugWorkflow
    debuggerFull (Except.error "unused3") (Except.error "unused3")
    (by decide) (by decide) (by rfl) ?_ (by rfl)
  intro w2 hw2 hm2 hne2
  rcases List.mem_cons.mp hw2 with rfl | hw2'
  · exact absurd rfl hne2
  · rcases List.mem_cons.mp hw2' with rfl | h
    · exact absurd hm2 (by decide)
    · simp at h

/-! ### Map and permutation lemmas for the directory merge -/

theorem perm_insortBy {α : Type} (bf : α → α → Bool) (x : α) (l : List α) :
    List.Perm (insortBy bf x l) (x :: l) := by
  induction l with
  | nil => rfl
  | cons y ys ih =>
    by_cases h : bf x y
    · simp [insortBy, h]
    · simp only [insortBy, h, Bool.false_eq_true, if_false]
      exact (ih.cons y).trans (List.Perm.swap x y ys)

theorem perm_stableSortBy {α : Type} (bf : α → α → Bool) (l : List α) :
    List.Perm (stableSortBy bf l) l := by
  suffices h : ∀ acc : List α,
      List.Perm (l.foldl (fun acc x => insortBy bf x acc) acc) (acc ++ l) by
    simpa [stableSortBy] using h []
  induction l with
  | nil => intro acc; simp
  | cons x xs ih =>
    intro acc
    have h1 : List.Perm (xs.foldl (fun acc x => insortBy bf x acc)
        (insortBy bf x acc)) (insortBy bf x acc ++ xs) := ih _
    have h2 : List.Perm (insortBy bf x acc ++ xs) ((x :: acc) ++ xs) :=
      (perm_insortBy bf x acc).append_right xs
    exact (h1.trans h2).trans List.perm_middle.symm

theorem mapLookup_cons {α : Type} (q : String × α) (m : List (String × α))
    (k : String) :
    mapLookup (q :: m) k = if q.1 == k then some q.2 else mapLookup m k := by
  by_cases h : q.1 == k
  · simp [mapLookup, List.find?_cons_of_pos, h]
  · simp [mapLookup, List.find?_cons_of_neg, h]

theorem mapLookup_map_replace {α : Type} (m : List (String × α)) (k n : String)
    (v : α) (hkn : (k == n) = false) :
    mapLookup (m.map (fun p => if p.1 == k then (k, v) else p)) n
      = mapLookup m n := by
  induction m with
  | nil => rfl
  | cons q m ih =>
    rw [List.map_cons]
    by_cases h : q.1 == k
    · have hq : q.1 = k := by simpa using h
      rw [if_pos h, mapLookup_cons, mapLookup_cons, ih]
      rw [if_neg (by simp [hkn]), if_neg (by simp [hq, hkn])]
    · rw [if_neg h, mapLookup_cons, mapLookup_cons, ih]

theorem mapLookup_map_replace_self {α : Type} (m : List (String × α))
    (k : String) (v : α) (hmem : m.any (fun p => p.1 == k) = true) :
    mapLookup (m.map (fun p => if p.1 == k then (k, v) else p)) k = some v := by
  induction m with
  | nil => simp at hmem
  | cons q m ih =>
    rw [List.map_cons]
    by_cases h : q.1 == k
    · rw [if_pos h, mapLookup_cons]
      simp
    · have htail : m.any (fun p => p.1 == k) = true := by
        simpa [List.any_cons, h] using hmem
      rw [if_neg h, mapLookup_cons, if_neg h, ih htail]

theorem mapLookup_eq_none_of_not_any {α : Type} (m : List (String × α))
    (k : String) (h : m.any (fun p => p.1 == k) = false) :
    mapLookup m k = none := by
  induction m with
  | nil => rfl
  | cons q m ih =>
    simp only [List.any_cons, Bool.or_eq_false_iff] at h
    simp [mapLookup_cons, h.1, ih h.2]

theorem mapLookup_append_single {α : Type} (m : List (String × α))
    (k n : String) (v : α) :
    mapLookup (m ++ [(k, v)]) n =
      match mapLookup m n with
      | some x => some x
      | none => if k == n then some v else none := by
  induction m with
  | nil =>
    simp only [List.nil_append]
    rw [mapLookup_cons]
    rfl
  | cons q m ih =>
    by_cases h : q.1 == n
    · simp [mapLookup_cons, h]
    · simp [mapLookup_cons, h, ih]

theorem mapSet_lookup {α : Type} (m : List (String × α)) (k : String) (v : α)
    (n : String) :
    mapLookup (mapSet m k v) n = if k == n then some v else mapLookup m n := by
  by_cases hmem : m.any (fun p => p.1 == k)
  · simp only [mapSet]
    rw [if_pos hmem]
    by_cases hkn : k == n
    · have hk : k = n := by simpa using hkn
      subst hk
      rw [mapLookup_map_replace_self m k v hmem, if_pos hkn]
    · have hkn' : (k == n) = false := by simpa using hkn
      rw [mapLookup_map_replace m k n v hkn', if_neg hkn]
  · have hmem' : m.any (fun p => p.1 == k) = false := Bool.eq_false_iff.mpr hmem
    have hnone : mapLookup m k = none := mapLookup_eq_none_of_not_any m k hmem'
    simp only [mapSet]
    rw [if_neg hmem, mapLookup_append_single]
    by_cases hkn : k == n
    · have hk : k = n := by simpa using hkn
      subst hk
      rw [hnone, if_pos hkn]
    · cases hl : mapLookup m n with
      | none => simp [hkn]
      | some x => simp [hkn]

theorem mapKeys_map_replace {α : Type} (m : List (String × α)) (k : String)
    (v : α) :
    mapKeys (m.map (fun p => if p.1 == k then (k, v) else p)) = mapKeys m := by
  induction m with
  | nil => rfl
  | cons q m ih =>
    rw [List.map_cons]
    by_cases h : q.1 == k
    · have hq : q.1 = k := by simpa using h
      rw [if_pos h]
      show k :: mapKeys (m.map fun p => if p.1 == k then (k, v) else p)
        = q.1 :: mapKeys m
      rw [ih, hq]
    · rw [if_neg h]
      show q.1 :: mapKeys (m.map fun p => if p.1 == k then (k, v) else p)
        = q.1 :: mapKeys m
      rw [ih]

theorem mapKeys_mapSet {α : Type} (m : List (String × α)) (k : String) (v : α) :
    mapKeys (mapSet m k v)
      = if m.any (fun p => p.1 == k) then mapKeys m else mapKeys m ++ [k] := by
  by_cases h : m.any (fun p => p.1 == k)
  · rw [if_pos h]
    simp only [mapSet]
    rw [if_pos h, mapKeys_map_replace]
  · rw [if_neg h]
    simp only [mapSet]
    rw [if_neg h]
    simp [mapKeys]

theorem not_mem_mapKeys_of_not_any {α : Type} (m : List (String × α))
    (k : String) (h : m.any (fun p => p.1 == k) = false) :
    k ∉ mapKeys m := by
  intro hmem
  obtain ⟨p, hp, hpk⟩ := List.mem_map.mp hmem
  have hfalse := List.any_eq_false.mp h p hp
  exact hfalse (by simp [hpk])

theorem nodup_mapKeys_mapSet {α : Type} (m : List (String × α)) (k : String)
    (v : α) (h : (mapKeys m).Nodup) :
    (mapKeys (mapSet m k v)).Nodup := by
  rw [mapKeys_mapSet]
  by_cases hmem : m.any (fun p => p.1 == k)
  · rw [if_pos hmem]; exact h
  · rw [if_neg hmem]
    have hk : k ∉ mapKeys m :=
      not_mem_mapKeys_of_not_any m k (Bool.eq_false_iff.mpr hmem)
    simp [List.nodup_append, h, hk]

theorem mem_mapKeys_mapSet_of_mem {α : Type} (m : List (String × α))
    (k : String) (v : α) (n : String) (h : n ∈ mapKeys m) :
    n ∈ mapKeys (mapSet m k v) := by
  rw [mapKeys_mapSet]
  by_cases hmem : m.any (fun p => p.1 == k)
  · rw [if_pos hmem]; exact h
  · rw [if_neg hmem]; exact List.mem_append_left _ h

theorem self_mem_mapKeys_mapSet {α : Type} (m : List (String × α)) (k : String)
    (v : α) :
    k ∈ mapKeys (mapSet m k v) := by
  rw [mapKeys_mapSet]
  by_cases hmem : m.any (fun p => p.1 == k)
  · rw [if_pos hmem]
    obtain ⟨p, hp, hpk⟩ := List.any_eq_true.mp hmem
    have hpk' : p.1 = k := by simpa using hpk
    exact hpk' ▸ List.mem_map.mpr ⟨p, hp, rfl⟩
  · rw [if_neg hmem]; exact List.mem_append_right _ (by simp)

theorem namedMap_nil : NamedMap [] := ⟨List.nodup_nil, by simp⟩

theorem namedMap_mapSet (m : List (String × WorkflowDefinition))
    (w : WorkflowDefinition) (h : NamedMap m) :
    NamedMap (mapSet m w.name w) := by
  refine ⟨nodup_mapKeys_mapSet m w.name w h.1, ?_⟩
  intro p hp
  simp only [mapSet] at hp
  by_cases hmem : m.any (fun q => q.1 == w.name)
  · rw [if_pos hmem] at hp
    obtain ⟨q, hq, hpq⟩ := List.mem_map.mp hp
    by_cases hqk : q.1 == w.name
    · rw [if_pos hqk] at hpq; subst hpq; rfl
    · rw [if_neg hqk] at hpq; subst hpq; exact h.2 q hq
  · rw [if_neg hmem] at hp
    rcases List.mem_append.mp hp with hp' | hp'
    · exact h.2 p hp'
    · have : p = (w.name, w) := by simpa using hp'
      subst this; rfl

theorem values_filter_nil_of_not_key (m : List (String × WorkflowDefinition))
    (n : String) (hinv : ∀ p ∈ m, p.1 = p.2.name) (hn : n ∉ mapKeys m) :
    (m.map (fun p => p.2)).filter (fun w => w.name == n) = [] := by
  induction m with
  | nil => rfl
  | cons q m ih =>
    have hq : q.1 = q.2.name := hinv q (by simp)
    have hcons : mapKeys (q :: m) = q.1 :: mapKeys m := rfl
    rw [hcons] at hn
    have hn1 : n ≠ q.1 := fun hc => hn (hc ▸ List.mem_cons_self _ _)
    have hn2 : n ∉ mapKeys m := fun hc => hn (List.mem_cons_of_mem _ hc)
    have hqn : (q.2.name == n) = false := by
      rw [← hq]
      exact beq_eq_false_iff_ne.mpr (Ne.symm hn1)
    rw [List.map_cons]
    simp only [List.filter_cons, hqn, Bool.false_eq_true, if_false]
    exact ih (fun p hp => hinv p (by simp [hp])) hn2

theorem values_filter_of_namedMap (m : List (String × WorkflowDefinition))
    (h : NamedMap m) (n : String) :
    (m.map (fun p => p.2)).filter (fun w => w.name == n)
      = match mapLookup m n with
        | some w => [w]
        | none => [] := by
  induction m with
  | nil => rfl
  | cons q m ih =>
    obtain ⟨hnd, hinv⟩ := h
    have hq : q.1 = q.2.name := hinv q (by simp)
    have hcons : mapKeys (q :: m) = q.1 :: mapKeys m := rfl
    rw [hcons] at hnd
    have hnd' := List.nodup_cons.mp hnd
    by_cases hqn : q.1 == n
    · have hqn' : q.1 = n := by simpa using hqn
      have hname : (q.2.name == n) = true := by
        rw [← hq, hqn']
        exact beq_self_eq_true n
      rw [List.map_cons, mapLookup_cons, if_pos hqn]
      simp only [List.filter_cons, hname, if_true]
      have htail := values_filter_nil_of_not_key m n
        (fun p hp => hinv p (by simp [hp])) (hqn' ▸ hnd'.1)
      rw [htail]
    · have hname : (q.2.name == n) = false := by
        rw [← hq]
        exact Bool.eq_false_iff.mpr hqn
      rw [List.map_cons, mapLookup_cons, if_neg hqn]
      simp only [List.filter_cons, hname, Bool.false_eq_true, if_false]
      exact ih ⟨hnd'.2, fun p hp => hinv p (by simp [hp])⟩

theorem mapLookup_foldIns (n : String) (ws : List WorkflowDefinition) :
    ∀ m, mapLookup (ws.foldl (fun m w => mapSet m w.name w) m) n
      = scanNamed n ws (mapLookup m n) := by
  induction ws with
  | nil => intro m; rfl
  | cons w ws ih =>
    intro m
    rw [List.foldl_cons, ih, mapSet_lookup]
    rfl

theorem namedMap_foldIns (ws : List WorkflowDefinition) :
    ∀ m, NamedMap m →
      NamedMap (ws.foldl (fun m w => mapSet m w.name w) m) := by
  induction ws with
  | nil => intro m h; exact h
  | cons w ws ih => intro m h; exact ih _ (namedMap_mapSet m w h)

theorem mem_keys_foldIns (ws : List WorkflowDefinition) :
    ∀ m n, n ∈ mapKeys m →
      n ∈ mapKeys (ws.foldl (fun m w => mapSet m w.name w) m) := by
  induction ws with
  | nil => intro m n h; exact h
  | cons w ws ih =>
    intro m n h
    exact ih _ n (mem_mapKeys_mapSet_of_mem m w.name w n h)

theorem name_mem_keys_foldIns (ws : List WorkflowDefinition) :
    ∀ m (w : WorkflowDefinition), w ∈ ws →
      w.name ∈ mapKeys (ws.foldl (fun m w => mapSet m w.name w) m) := by
  induction ws with
  | nil => intro m w h; simp at h
  | cons x ws ih =>
    intro m w h
    rcases List.mem_cons.mp h with rfl | h'
    · exact mem_keys_foldIns ws _ w.name (self_mem_mapKeys_mapSet m w.name w)
    · exact ih _ w h'

theorem scanNamed_shift (n : String) (ws : List WorkflowDefinition) :
    ∀ acc, scanNamed n ws acc
      = match scanNamed n ws none with
        | some w => some w
        | none => acc := by
  induction ws with
  | nil => intro acc; rfl
  | cons w ws ih =>
    intro acc
    show scanNamed n ws (if w.name == n then some w else acc) = _
    rw [ih (if w.name == n then some w else acc)]
    have hrhs : scanNamed n (w :: ws) none
        = scanNamed n ws (if w.name == n then some w else none) := rfl
    rw [hrhs, ih (if w.name == n then some w else none)]
    cases hs : scanNamed n ws none with
    | some x => rfl
    | none =>
      by_cases hw : w.name == n
      · rw [if_pos hw, if_pos hw]
      · rw [if_neg hw, if_neg hw]

theorem dirFold_errs (validator : Option (WorkflowCollection → WorkflowValidationResult))
    (files : List (String × Except String JValue)) :
    ∀ acc, (files.foldl (dirStep validator) acc).errs
      = acc.errs ++ dirErrors validator files := by
  induction files with
  | nil => intro acc; simp [dirErrors]
  | cons fv files ih =>
    intro acc
    rw [List.foldl_cons, ih]
    cases hp : parseAndValidate validator fv.2 with
    | ok c => simp [dirStep, hp, dirErrors, List.filterMap_cons]
    | error e => simp [dirStep, hp, dirErrors, List.filterMap_cons]

theorem dirFold_parsed (validator : Option (WorkflowCollection → WorkflowValidationResult))
    (files : List (String × Except String JValue)) :
    ∀ acc, (files.foldl (dirStep validator) acc).parsed
      = acc.parsed ++ dirParsed validator files := by
  induction files with
  | nil => intro acc; simp [dirParsed]
  | cons fv files ih =>
    intro acc
    rw [List.foldl_cons, ih]
    cases hp : parseAndValidate validator fv.2 with
    | ok c => simp [dirStep, hp, dirParsed, List.filterMap_cons]
    | error e => simp [dirStep, hp, dirParsed, List.filterMap_cons]

theorem dirFold_key_mem (validator : Option (WorkflowCollection → WorkflowValidationResult))
    (files : List (String × Except String JValue)) :
    ∀ acc n, n ∈ mapKeys acc.byName →
      n ∈ mapKeys ((files.foldl (dirStep validator) acc).byName) := by
  induction files with
  | nil => intro acc n h; exact h
  | cons fv files ih =>
    intro acc n h
    rw [List.foldl_cons]
    apply ih
    cases hp : parseAndValidate validator fv.2 with
    | ok c => simpa [dirStep, hp] using mem_keys_foldIns c.workflows acc.byName n h
    | error e => simpa [dirStep, hp] using h

theorem dirFold_key_of_ok (validator : Option (WorkflowCollection → WorkflowValidationResult))
    (files : List (String × Except String JValue)) :
    ∀ acc (f : String) (v : Except String JValue) (c : WorkflowCollection)
      (wf : WorkflowDefinition), (f, v) ∈ files →
      parseAndValidate validator v = Except.ok c → wf ∈ c.workflows →
      wf.name ∈ mapKeys ((files.foldl (dirStep validator) acc).byName) := by
  induction files with
  | nil => intro acc f v c wf h; simp at h
  | cons fv files ih =>
    intro acc f v c wf hmem hp hwf
    rw [List.foldl_cons]
    rcases List.mem_cons.mp hmem with heq | hmem'
    · apply dirFold_key_mem
      rw [← heq]
      simp only [dirStep, hp]
      exact name_mem_keys_foldIns c.workflows acc.byName wf hwf
    · exact ih _ f v c wf hmem' hp hwf

theorem dirFold_namedMap (validator : Option (WorkflowCollection → WorkflowValidationResult))
    (files : List (String × Except String JValue)) :
    ∀ acc, NamedMap acc.byName →
      NamedMap ((files.foldl (dirStep validator) acc).byName) := by
  induction files with
  | nil => intro acc h; exact h
  | cons fv files ih =>
    intro acc h
    rw [List.foldl_cons]
    apply ih
    cases hp : parseAndValidate validator fv.2 with
    | ok c => simpa [dirStep, hp] using namedMap_foldIns c.workflows acc.byName h
    | error e => simpa [dirStep, hp] using h

theorem keys_dirErrors_sub (validator : Option (WorkflowCollection → WorkflowValidationResult))
    (files : List (String × Except String JValue)) :
    ∀ q ∈ dirErrors validator files, q.1 ∈ files.map (fun p => p.1) := by
  intro q hq
  obtain ⟨fv, hfv, hmatch⟩ := List.mem_filterMap.mp hq
  cases hp : parseAndValidate validator fv.2 with
  | ok c => rw [hp] at hmatch; simp at hmatch
  | error e =>
    rw [hp] at hmatch
    have : (fv.1, e) = q := by simpa using hmatch
    rw [← this]
    exact List.mem_map.mpr ⟨fv, hfv, rfl⟩

theorem key_unique_of_nodup {α : Type} (l : List (String × α))
    (hnd : (l.map (fun p => p.1)).Nodup) (p q : String × α)
    (hp : p ∈ l) (hq : q ∈ l) (hk : p.1 = q.1) : p = q := by
  induction l with
  | nil => simp at hp
  | cons x l ih =>
    rw [List.map_cons] at hnd
    have hnd1 := (List.nodup_cons.mp hnd).1
    have hnd2 := (List.nodup_cons.mp hnd).2
    rcases List.mem_cons.mp hp with hpx | hp' <;>
      rcases List.mem_cons.mp hq with hqx | hq'
    · rw [hpx, hqx]
    · rw [hpx] at hk
      have hcon : x.1 ∈ l.map (fun p => p.1) := by
        rw [hk]; exact List.mem_map.mpr ⟨q, hq', rfl⟩
      exact absurd hcon hnd1
    · rw [hqx] at hk
      have hcon : x.1 ∈ l.map (fun p => p.1) := by
        rw [← hk]; exact List.mem_map.mpr ⟨p, hp', rfl⟩
      exact absurd hcon hnd1
    · exact ih hnd2 hp' hq'

theorem dirErrors_filter_eq (validator : Option (WorkflowCollection → WorkflowValidationResult))
    (files : List (String × Except String JValue))
    (hnd : (files.map (fun p => p.1)).Nodup) (f : String)
    (v : Except String JValue) (e : String)
    (hmem : (f, v) ∈ files) (hp : parseAndValidate validator v = Except.error e) :
    (dirErrors validator files).filter (fun q => q.1 == f) = [(f, e)] := by
  induction files with
  | nil => simp at hmem
  | cons fv files ih =>
    have hnd0 : (fv.1 :: files.map (fun p => p.1)).Nodup := by simpa using hnd
    have hnd' := List.nodup_cons.mp hnd0
    rcases List.mem_cons.mp hmem with heq | hmem'
    · have htail : (dirErrors validator files).filter (fun q => q.1 == f) = [] := by
        rw [List.filter_eq_nil_iff]
        intro q hq
        have hsub := keys_dirErrors_sub validator files q hq
        have hf : q.1 ≠ f := by
          intro hc
          apply hnd'.1
          rw [← heq]
          exact hc ▸ hsub
        simpa using hf
      rw [dirErrors, List.filterMap_cons, ← heq, hp]
      simp only [List.filter_cons]
      rw [show ((f, e).1 == f) = true from beq_self_eq_true f]
      simp only [if_true]
      rw [show (List.filterMap _ files) = dirErrors validator files from rfl, htail]
    · have hne : fv.1 ≠ f := by
        intro hc
        exact hnd'.1 (hc ▸ List.mem_map.mpr ⟨(f, v), hmem', rfl⟩)
      have hrec := ih hnd'.2 hmem'
      cases hq : parseAndValidate validator fv.2 with
      | ok c =>
        rw [dirErrors, List.filterMap_cons, hq]
        exact hrec
      | error e2 =>
        rw [dirErrors, List.filterMap_cons, hq]
        simp only [List.filter_cons]
        rw [show ((fv.1, e2).1 == f) = false from beq_eq_false_iff_ne.mpr hne]
        simp only [Bool.false_eq_true, if_false]
        exact hrec

theorem mem_dirParsed_of_ok (validator : Option (WorkflowCollection → WorkflowValidationResult))
    (files : List (String × Except String JValue)) (f : String)
    (v : Except String JValue) (c : WorkflowCollection)
    (hmem : (f, v) ∈ files) (hp : parseAndValidate validator v = Except.ok c) :
    f ∈ dirParsed validator files := by
  apply List.mem_filterMap.mpr
  exact ⟨(f, v), hmem, by simp [hp]⟩

theorem not_mem_dirParsed_of_error (validator : Option (WorkflowCollection → WorkflowValidationResult))
    (files : List (String × Except String JValue))
    (hnd : (files.map (fun p => p.1)).Nodup) (f : String)
    (v : Except String JValue) (e : String)
    (hmem : (f, v) ∈ files) (hp : parseAndValidate validator v = Except.error e) :
    f ∉ dirParsed validator files := by
  intro hf
  obtain ⟨fv, hfv, hmatch⟩ := List.mem_filterMap.mp hf
  cases hq : parseAndValidate validator fv.2 with
  | error e2 => rw [hq] at hmatch; simp at hmatch
  | ok c =>
    rw [hq] at hmatch
    have hkey : fv.1 = f := by simpa using hmatch
    have := key_unique_of_nodup files hnd fv (f, v) hfv hmem hkey
    rw [this] at hq
    rw [hp] at hq
    exact Except.noConfusion hq

/-- C7: when two files both parse and the lexicographically later one defines
a workflow name also defined by the earlier one, the merged collection holds
exactly the later file's definition for that name — the whole decoded record,
step list included — and files are processed in filename order regardless of
listing order (here the directory listing presents the later file first). -/
theorem later_file_overrides
    (validator : Option (WorkflowCollection → WorkflowValidationResult))
    (a b : String) (va vb : Except String JValue)
    (cA cB : WorkflowCollection) (n : String) (wA wB : WorkflowDefinition)
    (hab : strLt a b = true)
    (hA : parseAndValidate validator va = Except.ok cA)
    (hB : parseAndValidate validator vb = Except.ok cB)
    (_hnA : scanNamed n cA.workflows none = some wA)
    (hnB : scanNamed n cB.workflows none = some wB) :
    (parseDirectory validator [(b, vb), (a, va)]).parsedFiles = [a, b]
    ∧ (parseDirectory validator [(b, vb), (a, va)]).collection.workflows.filter
        (fun w => w.name == n) = [wB] := by
  have hsort : stableSortBy
      (fun (x y : String × Except String JValue) => strLt x.1 y.1)
      [(b, vb), (a, va)] = [(a, va), (b, vb)] := by
    simp only [stableSortBy, List.foldl_cons, List.foldl_nil, insortBy]
    rw [if_pos (by simpa using hab)]
  have hstep : [(a, va), (b, vb)].foldl (dirStep validator)
      ({ byName := [], parsed := [], errs := [] } : DirAcc)
      = { byName := cB.workflows.foldl (fun m w => mapSet m w.name w)
            (cA.workflows.foldl (fun m w => mapSet m w.name w) []),
          parsed := [a, b], errs := [] } := by
    simp [dirStep, hA, hB]
  have hdir1 : (parseDirectory validator [(b, vb), (a, va)]).parsedFiles
      = [a, b] := by
    simp only [parseDirectory, List.isEmpty_cons, Bool.false_eq_true, if_false,
      hsort, hstep]
  have hdir2 : (parseDirectory validator [(b, vb), (a, va)]).collection.workflows
      = (cB.workflows.foldl (fun m w => mapSet m w.name w)
          (cA.workflows.foldl (fun m w => mapSet m w.name w) [])).map
          (fun p => p.2) := by
    simp only [parseDirectory, List.isEmpty_cons, Bool.false_eq_true, if_false,
      hsort, hstep]
  refine ⟨hdir1, ?_⟩
  rw [hdir2]
  have hnm : NamedMap (cB.workflows.foldl (fun m w => mapSet m w.name w)
      (cA.workflows.foldl (fun m w => mapSet m w.name w) [])) :=
    namedMap_foldIns _ _ (namedMap_foldIns _ _ namedMap_nil)
  rw [values_filter_of_namedMap _ hnm n, mapLookup_foldIns, scanNamed_shift, hnB]

/-- C7 witness: a concrete two-file directory (listed later-first) where both
files define `deploy`; the merged entry is the later file's record. -/
theorem later_file_overrides_witness :
    strLt "a.yaml" "b.yaml" = true ∧
    (parseDirectory none
        [("b.yaml", Except.ok c7fileB), ("a.yaml", Except.ok c7fileA)]).parsedFiles
      = ["a.yaml", "b.yaml"] ∧
    (parseDirectory none
        [("b.yaml", Except.ok c7fileB),
         ("a.yaml", Except.ok c7fileA)]).collection.workflows.filter
        (fun w => w.name == "deploy")
      = [decodeWorkflow c7wfB] := by
  have hab : strLt "a.yaml" "b.yaml" = true := by decide
  have h := later_file_overrides none "a.yaml" "b.yaml"
    (Except.ok c7fileA) (Except.ok c7fileB)
    { workflows := [decodeWorkflow c7wfA] } { workflows := [decodeWorkflow c7wfB] }
    "deploy" (decodeWorkflow c7wfA) (decodeWorkflow c7wfB)
    hab (by rfl) (by rfl) (by rfl) (by rfl)
  exact ⟨hab, h.1, h.2⟩

theorem exists_value_of_key (m : List (String × WorkflowDefinition))
    (h : NamedMap m) (n : String) (hk : n ∈ mapKeys m) :
    ∃ w2 ∈ m.map (fun p => p.2), w2.name = n := by
  obtain ⟨p, hp, hpn⟩ := List.mem_map.mp hk
  exact ⟨p.2, List.mem_map.mpr ⟨p, hp, rfl⟩, by rw [← h.2 p hp, hpn]⟩

/-- C8: `parseDirectory` is total (it returns a result record, never throws)
and isolates failures per file: over any directory listing with distinct
filenames, every file whose content fails to parse contributes exactly one
error-map entry keyed by its filename (and is not listed as parsed), while
every file that parses is listed as parsed and each of its workflow names is
present in the merged collection. -/
theorem per_file_isolation
    (validator : Option (WorkflowCollection → WorkflowValidationResult))
    (files : List (String × Except String JValue))
    (hnd : (files.map (fun p => p.1)).Nodup) :
    (∀ f v e, (f, v) ∈ files → parseAndValidate validator v = Except.error e →
      (parseDirectory validator files).errors.filter (fun q => q.1 == f)
        = [(f, e)]
      ∧ f ∉ (parseDirectory validator files).parsedFiles)
    ∧ (∀ f v c, (f, v) ∈ files → parseAndValidate validator v = Except.ok c →
      f ∈ (parseDirectory validator files).parsedFiles
      ∧ ∀ wf ∈ c.workflows,
        ∃ w2 ∈ (parseDirectory validator files).collection.workflows,
          w2.name = wf.name) := by
  cases files with
  | nil =>
    constructor
    · intro f v e hmem; simp at hmem
    · intro f v c hmem; simp at hmem
  | cons fv fs =>
    have hperm : List.Perm
        (stableSortBy (fun (x y : String × Except String JValue) => strLt x.1 y.1)
          (fv :: fs)) (fv :: fs) :=
      perm_stableSortBy _ _
    have hnds : ((stableSortBy
        (fun (x y : String × Except String JValue) => strLt x.1 y.1)
        (fv :: fs)).map (fun p => p.1)).Nodup :=
      ((hperm.map (fun p => p.1)).nodup_iff).mpr hnd
    have herrs : (parseDirectory validator (fv :: fs)).errors
        = dirErrors validator (stableSortBy
            (fun (x y : String × Except String JValue) => strLt x.1 y.1)
            (fv :: fs)) := by
      simp only [parseDirectory, List.isEmpty_cons, Bool.false_eq_true, if_false]
      rw [dirFold_errs]
      rfl
    have hparsed : (parseDirectory validator (fv :: fs)).parsedFiles
        = dirParsed validator (stableSortBy
            (fun (x y : String × Except String JValue) => strLt x.1 y.1)
            (fv :: fs)) := by
      simp only [parseDirectory, List.isEmpty_cons, Bool.false_eq_true, if_false]
      rw [dirFold_parsed]
      rfl
    have hcoll : (parseDirectory validator (fv :: fs)).collection.workflows
        = (((stableSortBy
            (fun (x y : String × Except String JValue) => strLt x.1 y.1)
            (fv :: fs)).foldl (dirStep validator)
              { byName := [], parsed := [], errs := [] }).byName).map
          (fun p => p.2) := by
      simp only [parseDirectory, List.isEmpty_cons, Bool.false_eq_true, if_false]
    constructor
    · intro f v e hmem hp
      have hmems : (f, v) ∈ stableSortBy
          (fun (x y : String × Except String JValue) => strLt x.1 y.1)
          (fv :: fs) := hperm.mem_iff.mpr hmem
      constructor
      · rw [herrs]
        exact dirErrors_filter_eq validator _ hnds f v e hmems hp
      · rw [hparsed]
        exact not_mem_dirParsed_of_error validator _ hnds f v e hmems hp
    · intro f v c hmem hp
      have hmems : (f, v) ∈ stableSortBy
          (fun (x y : String × Except String JValue) => strLt x.1 y.1)
          (fv :: fs) := hperm.mem_iff.mpr hmem
      constructor
      · rw [hparsed]
        exact mem_dirParsed_of_ok validator _ f v c hmems hp
      · intro wf hwf
        rw [hcoll]
        have hkey := dirFold_key_of_ok validator _
          ({ byName := [], parsed := [], errs := [] } : DirAcc)
          f v c wf hmems hp hwf
        have hnm := dirFold_namedMap validator
          (stableSortBy (fun (x y : String × Except String JValue) => strLt x.1 y.1)
            (fv :: fs))
          ({ byName := [], parsed := [], errs := [] } : DirAcc) namedMap_nil
        exact exists_value_of_key _ hnm wf.name hkey

/-- C8 witness: the valid file's definition is merged and the invalid file
contributes exactly one error entry keyed by its name. -/
theorem per_file_isolation_witness :
    (c8files.map (fun p => p.1)).Nodup ∧
    (parseDirectory none c8files).errors.filter (fun q => q.1 == "z.yaml")
      = [("z.yaml", "workflows array cannot be empty")] ∧
    "z.yaml" ∉ (parseDirectory none c8files).parsedFiles ∧
    "a.yaml" ∈ (parseDirectory none c8files).parsedFiles ∧
    ∃ w2 ∈ (parseDirectory none c8files).collection.workflows,
      w2.name = (decodeWorkflow c7wfA).name := by
  have hnd : (c8files.map (fun p => p.1)).Nodup := by decide
  have h := per_file_isolation none c8files hnd
  have hbadmem : ("z.yaml", Except.ok c8badFile) ∈ c8files :=
    List.mem_cons_of_mem _ (List.mem_cons_self _ _)
  have hgoodmem : ("a.yaml", Except.ok c7fileA) ∈ c8files :=
    List.mem_cons_self _ _
  have herr := h.1 "z.yaml" (Except.ok c8badFile)
    "workflows array cannot be empty" hbadmem (by rfl)
  have hok := h.2 "a.yaml" (Except.ok c7fileA)
    { workflows := [decodeWorkflow c7wfA] } hgoodmem (by rfl)
  exact ⟨hnd, herr.1, herr.2, hok.1,
    hok.2 (decodeWorkflow c7wfA) (by simp)⟩

theorem checkWorkflows_failing_entry (ws : List JValue) :
    ∀ (k i : Nat) (hi : i < ws.length),
      exceptIsError (checkWorkflow (k + i) (ws.get ⟨i, hi⟩)) = true →
      exceptIsError (checkWorkflows k ws) = true := by
  induction ws with
  | nil => intro k i hi; simp at hi
  | cons w ws ih =>
    intro k i hi hfail
    cases hc : checkWorkflow k w with
    | error e => simp [checkWorkflows, hc, exceptIsError]
    | ok u =>
      cases i with
      | zero =>
        rw [Nat.add_zero, show (w :: ws).get ⟨0, hi⟩ = w from rfl, hc] at hfail
        simp [exceptIsError] at hfail
      | succ j =>
        have hj : j < ws.length := by
          simpa [Nat.succ_lt_succ_iff] using hi
        have hfail2 : exceptIsError
            (checkWorkflow ((k + 1) + j) (ws.get ⟨j, hj⟩)) = true := by
          rw [show (w :: ws).get ⟨j + 1, hi⟩ = ws.get ⟨j, hj⟩ from rfl] at hfail
          rw [show (k + 1) + j = k + (j + 1) by omega]
          exact hfail
        have hrest := ih (k + 1) j hj hfail2
        simp only [checkWorkflows, hc]
        exact hrest

/-- C10: failure isolation is per file, not per workflow entry: if any single
entry of a file's `workflows` array fails a structural check, `parse` throws
for the whole file, so the file loads none of its workflows (the valid ones
included) and contributes exactly one error-map entry. -/
theorem structural_failure_whole_file
    (validator : Option (WorkflowCollection → WorkflowValidationResult))
    (f : String) (ws : List JValue) (i : Nat) (hi : i < ws.length)
    (hfail : exceptIsError (checkWorkflow i (ws.get ⟨i, hi⟩)) = true) :
    exceptIsError (parseStructure (JValue.obj [("workflows", JValue.arr ws)]))
      = true
    ∧ (parseDirectory validator
        [(f, Except.ok (JValue.obj [("workflows", JValue.arr ws)]))]).collection.workflows
      = []
    ∧ (parseDirectory validator
        [(f, Except.ok (JValue.obj [("workflows", JValue.arr ws)]))]).parsedFiles
      = []
    ∧ ∃ e, (parseDirectory validator
        [(f, Except.ok (JValue.obj [("workflows", JValue.arr ws)]))]).errors
      = [(f, e)] := by
  have hnonempty : ws.isEmpty = false := by
    cases ws
    · simp at hi
    · rfl
  have hcheck : exceptIsError (checkWorkflows 0 ws) = true :=
    checkWorkflows_failing_entry ws 0 i hi (by simpa using hfail)
  obtain ⟨e0, he0⟩ : ∃ e0, checkWorkflows 0 ws = Except.error e0 := by
    cases hx : checkWorkflows 0 ws with
    | error e => exact ⟨e, rfl⟩
    | ok u => rw [hx] at hcheck; simp [exceptIsError] at hcheck
  have hps : parseStructure (JValue.obj [("workflows", JValue.arr ws)])
      = Except.error e0 := by
    simp only [parseStructure]
    rw [show getJField [("workflows", JValue.arr ws)] "workflows"
      = some (JValue.arr ws) from rfl]
    simp only [hnonempty, Bool.false_eq_true, if_false, he0]
  have hpav : parseAndValidate validator
      (Except.ok (JValue.obj [("workflows", JValue.arr ws)]))
      = Except.error e0 := by
    simp only [parseAndValidate, parseFile, hps]
  have hsort1 : stableSortBy
      (fun (x y : String × Except String JValue) => strLt x.1 y.1)
      [(f, Except.ok (JValue.obj [("workflows", JValue.arr ws)]))]
      = [(f, Except.ok (JValue.obj [("workflows", JValue.arr ws)]))] := rfl
  have hcoll : (parseDirectory validator
      [(f, Except.ok (JValue.obj [("workflows", JValue.arr ws)]))]).collection.workflows
      = [] := by
    simp only [parseDirectory, List.isEmpty_cons, Bool.false_eq_true, if_false,
      hsort1, List.foldl_cons, List.foldl_nil, dirStep, hpav, List.map_nil]
  have hparsed : (parseDirectory validator
      [(f, Except.ok (JValue.obj [("workflows", JValue.arr ws)]))]).parsedFiles
      = [] := by
    simp only [parseDirectory, List.isEmpty_cons, Bool.false_eq_true, if_false,
      hsort1, List.foldl_cons, List.foldl_nil, dirStep, hpav]
  have herrs : (parseDirectory validator
      [(f, Except.ok (JValue.obj [("workflows", JValue.arr ws)]))]).errors
      = [(f, e0)] := by
    simp only [parseDirectory, List.isEmpty_cons, Bool.false_eq_true, if_false,
      hsort1, List.foldl_cons, List.foldl_nil, dirStep, hpav, List.nil_append]
  exact ⟨by rw [hps]; rfl, hcoll, hparsed, ⟨e0, herrs⟩⟩

/-- C10 witness: a file with one valid and one invalid workflow entry loads
nothing and yields one error entry for the file. -/
theorem structural_failure_whole_file_witness :
    (1 : Nat) < c10ws.length ∧
    exceptIsError (checkWorkflow 1 c10badWf) = true ∧
    exceptIsError (parseStructure (JValue.obj [("workflows", JValue.arr c10ws)]))
      = true ∧
    (parseDirectory none
        [("flows.yaml", Except.ok (JValue.obj [("workflows", JValue.arr c10ws)]))]).collection.workflows
      = [] ∧
    ∃ e, (parseDirectory none
        [("flows.yaml", Except.ok (JValue.obj [("workflows", JValue.arr c10ws)]))]).errors
      = [("flows.yaml", e)] := by
  have h1 : (1 : Nat) < c10ws.length := by decide
  have hfail : exceptIsError (checkWorkflow 1 (c10ws.get ⟨1, h1⟩)) = true := rfl
  have h := structural_failure_whole_file none "flows.yaml" c10ws 1 h1 hfail
  exact ⟨h1, rfl, h.1, h.2.1, h.2.2.2⟩
